import Mathlib

/-!
Verification development for the geoglows_ecflow forecast job graph builder
and the comfies/ooflow trigger-expression layer.

Part A embeds the suite/family/task builders of
`geoglows_ecflow/geoglows_forecast_job.py`: each ecFlow `Task` carries a
name, ordered variables, and at most one trigger string (the builders call
`add_trigger` at most once per node); a `Family` carries its name, its
stage trigger, its variables and its child tasks in creation order.

Part B embeds the expression algebra and node-path machinery of
`geoglows_ecflow/workflow/comfies/ooflow.py`.
-/

set_option maxHeartbeats 1000000

namespace Geoglows

/-- An ecFlow task as built by the job builders: name, `add_variable` calls in
order, and the (at most one) `add_trigger` string. -/
structure ETask where
  name : String
  vars : List (String × String)
  trigger : Option String
deriving Repr, DecidableEq

/-- An ecFlow family as built by the job builders: name, the stage-level
trigger string, `add_variable` calls in order, and the child tasks in
creation order. -/
structure EFamily where
  name : String
  trigger : Option String
  vars : List (String × String)
  tasks : List ETask
deriving Repr, DecidableEq

/-- Models `os.path.dirname(__file__)` for the geoglows_ecflow package: a
fixed directory string of the installation, constant across builds. -/
def moduleDirname : String := "geoglows_ecflow"

/-- Models `os.path.join(os.path.dirname(__file__), "resources", name)`. -/
def resourceScript (scriptName : String) : String :=
  moduleDirname ++ "/resources/" ++ scriptName

/-- The f-string `f"{task_name}_{vpu}_{j}"` used both for ensemble task names
and for the task referenced by an ensemble trigger. -/
def taskLabel (task_name vpu : String) (j : Nat) : String :=
  task_name ++ "_" ++ vpu ++ "_" ++ toString j

/-- The f-string `f"{task_name}_{vpu}"` used for the per-VPU task names of the
non-ensemble families. -/
def vpuLabel (task_name vpu : String) : String :=
  task_name ++ "_" ++ vpu

/-- `reversed(range(1, 53))`: the ensemble member indices 52 down to 1. -/
def ensembleMembers : List Nat := (List.range' 1 52).reverse

/-- The task built for basin index `i` (basin code `vpu`) and ensemble member
`j` inside `create_rapid_run_family`.  The Python index `vpu_list[i - 1]` is
only evaluated when `j + 1 > 52`, which inside the guard `i > 0 or j != 52`
forces `i > 0`, so truncated subtraction agrees with Python indexing on all
reachable calls. -/
def rapidEnsTask (task_name : String) (vpu_list : List String) (is_local : Bool)
    (i : Nat) (vpu : String) (j : Nat) : ETask :=
  { name := taskLabel task_name vpu j
    vars := [("JOB_ID", "job_" ++ vpu ++ "_" ++ toString j)]
    trigger :=
      if is_local ∧ (0 < i ∨ j ≠ 52) then
        some (taskLabel task_name
          (if 52 < j + 1 then vpu_list.getD (i - 1) "" else vpu) (j % 52 + 1)
          ++ " == complete")
      else none }

/-- The `for i, vpu in enumerate(vpu_list)` loop of `create_rapid_run_family`,
carrying the running index `i` of `enumerate`. -/
def rapidEnsTasksFrom (task_name : String) (vpu_list : List String)
    (is_local : Bool) : Nat → List String → List ETask
  | _, [] => []
  | i, vpu :: rest =>
      ensembleMembers.map (rapidEnsTask task_name vpu_list is_local i vpu)
        ++ rapidEnsTasksFrom task_name vpu_list is_local (i + 1) rest

/-- `create_rapid_run_family` of `geoglows_forecast_job.py`. -/
def create_rapid_run_family (family_name task_name : String)
    (vpu_list : List String) (trigger_task rapid_exec rapid_exec_dir
    rapid_subprocess_dir : String) (is_local : Bool) : EFamily :=
  { name := family_name
    trigger := some (trigger_task ++ " == complete")
    vars := [("PYSCRIPT", resourceScript "run_rapid_forecast.py"),
                  ("RAPID_EXEC", rapid_exec),
                  ("EXEC_DIR", rapid_exec_dir),
                  ("SUBPROCESS_DIR", rapid_subprocess_dir)]
    tasks := rapidEnsTasksFrom task_name vpu_list is_local 0 vpu_list }

/-- The task built for basin index `i` inside `create_nc_to_zarr_family`. -/
def zarrTask (task_name : String) (vpu_list : List String) (is_local : Bool)
    (i : Nat) (vpu : String) : ETask :=
  { name := vpuLabel task_name vpu
    vars := [("VPU", vpu)]
    trigger :=
      if is_local ∧ 0 < i then
        some (vpuLabel task_name (vpu_list.getD (i - 1) "") ++ " == complete")
      else none }

/-- The `for i, vpu in enumerate(vpu_list)` loop of `create_nc_to_zarr_family`. -/
def zarrTasksFrom (task_name : String) (vpu_list : List String)
    (is_local : Bool) : Nat → List String → List ETask
  | _, [] => []
  | i, vpu :: rest =>
      zarrTask task_name vpu_list is_local i vpu
        :: zarrTasksFrom task_name vpu_list is_local (i + 1) rest

/-- `create_nc_to_zarr_family` of `geoglows_forecast_job.py`. -/
def create_nc_to_zarr_family (family_name task_name : String)
    (vpu_list : List String) (trigger : String) (is_local : Bool) : EFamily :=
  { name := family_name
    trigger := some (trigger ++ " == complete")
    vars := [("PYSCRIPT", resourceScript "netcdf_to_zarr.py")]
    tasks := zarrTasksFrom task_name vpu_list is_local 0 vpu_list }

/-- The task built for basin index `i` inside `create_init_flows_family`. -/
def initFlowsTask (task_name : String) (vpu_list : List String)
    (is_local : Bool) (i : Nat) (vpu : String) : ETask :=
  { name := vpuLabel task_name vpu
    vars := [("VPU", vpu)]
    trigger :=
      if is_local ∧ 0 < i then
        some (vpuLabel task_name (vpu_list.getD (i - 1) "") ++ " == complete")
      else none }

/-- The enumerate loop of `create_init_flows_family`. -/
def initFlowsTasksFrom (task_name : String) (vpu_list : List String)
    (is_local : Bool) : Nat → List String → List ETask
  | _, [] => []
  | i, vpu :: rest =>
      initFlowsTask task_name vpu_list is_local i vpu
        :: initFlowsTasksFrom task_name vpu_list is_local (i + 1) rest

/-- `create_init_flows_family` of `geoglows_forecast_job.py`. -/
def create_init_flows_family (family_name task_name : String)
    (vpu_list : List String) (trigger : String) (is_local : Bool) : EFamily :=
  { name := family_name
    trigger := some (trigger ++ " == complete")
    vars := [("PYSCRIPT", resourceScript "compute_init_flows.py")]
    tasks := initFlowsTasksFrom task_name vpu_list is_local 0 vpu_list }

/-- The task built for basin index `i` inside `create_esri_table_family`
(`str(vpu)` on a string is the string itself). -/
def esriTask (task_name : String) (vpu_list : List String) (is_local : Bool)
    (i : Nat) (vpu : String) : ETask :=
  { name := vpuLabel task_name vpu
    vars := [("VPU", vpu)]
    trigger :=
      if is_local ∧ 0 < i then
        some (vpuLabel task_name (vpu_list.getD (i - 1) "") ++ " == complete")
      else none }

/-- The enumerate loop of `create_esri_table_family`. -/
def esriTasksFrom (task_name : String) (vpu_list : List String)
    (is_local : Bool) : Nat → List String → List ETask
  | _, [] => []
  | i, vpu :: rest =>
      esriTask task_name vpu_list is_local i vpu
        :: esriTasksFrom task_name vpu_list is_local (i + 1) rest

/-- `create_esri_table_family` of `geoglows_forecast_job.py`. -/
def create_esri_table_family (family_name task_name : String)
    (vpu_list : List String) (nces_exec trigger : String)
    (is_local : Bool) : EFamily :=
  { name := family_name
    trigger := some (trigger ++ " == complete")
    vars := [("PYSCRIPT", resourceScript "generate_esri_table.py"),
                  ("NCES_EXEC", nces_exec)]
    tasks := esriTasksFrom task_name vpu_list is_local 0 vpu_list }

/-- The task built for basin index `i` inside `create_day_one_family`. -/
def dayOneTask (task_name : String) (vpu_list : List String)
    (output_dir : String) (is_local : Bool) (i : Nat) (vpu : String) : ETask :=
  { name := vpuLabel task_name vpu
    vars := [("VPU", vpu), ("OUTPUT_DIR", output_dir)]
    trigger :=
      if is_local ∧ 0 < i then
        some (vpuLabel task_name (vpu_list.getD (i - 1) "") ++ " == complete")
      else none }

/-- The enumerate loop of `create_day_one_family`. -/
def dayOneTasksFrom (task_name : String) (vpu_list : List String)
    (output_dir : String) (is_local : Bool) : Nat → List String → List ETask
  | _, [] => []
  | i, vpu :: rest =>
      dayOneTask task_name vpu_list output_dir is_local i vpu
        :: dayOneTasksFrom task_name vpu_list output_dir is_local (i + 1) rest

/-- `create_day_one_family` of `geoglows_forecast_job.py`. -/
def create_day_one_family (family_name task_name : String)
    (vpu_list : List String) (output_dir trigger : String)
    (is_local : Bool) : EFamily :=
  { name := family_name
    trigger := some (trigger ++ " == complete")
    vars := [("PYSCRIPT", resourceScript "day_one_forecast.py")]
    tasks := dayOneTasksFrom task_name vpu_list output_dir is_local 0 vpu_list }

/-- The task built for basin index `i` inside `create_aws_family`. -/
def awsTask (task_name : String) (vpu_list : List String) (is_local : Bool)
    (i : Nat) (vpu : String) : ETask :=
  { name := vpuLabel task_name vpu
    vars := [("VPU", vpu)]
    trigger :=
      if is_local ∧ 0 < i then
        some (vpuLabel task_name (vpu_list.getD (i - 1) "") ++ " == complete")
      else none }

/-- The enumerate loop of `create_aws_family`. -/
def awsTasksFrom (task_name : String) (vpu_list : List String)
    (is_local : Bool) : Nat → List String → List ETask
  | _, [] => []
  | i, vpu :: rest =>
      awsTask task_name vpu_list is_local i vpu
        :: awsTasksFrom task_name vpu_list is_local (i + 1) rest

/-- `create_aws_family` of `geoglows_forecast_job.py`. -/
def create_aws_family (family_name task_name : String)
    (vpu_list : List String) (aws_config trigger : String)
    (is_local : Bool) : EFamily :=
  { name := family_name
    trigger := some (trigger ++ " == complete")
    vars := [("PYSCRIPT", resourceScript "archive_to_aws.py"),
                  ("AWS_CONFIG", aws_config)]
    tasks := awsTasksFrom task_name vpu_list is_local 0 vpu_list }

/-- `get_valid_vpucode_list` of `resources/helper_functions.py`: iterate the
directory entries in listing order, keeping exactly the names that are
directories.  An entry is modelled as its name paired with the result of
`os.path.isdir`. -/
def get_valid_vpucode_list (entries : List (String × Bool)) : List String :=
  (entries.filter (fun e => e.2)).map (fun e => e.1)

/-- The configuration keys read by `create` of `geoglows_forecast_job.py`. -/
structure Config where
  python_exec : String
  ecflow_home : String
  ecflow_bin : String
  workspace : String
  local_run : Bool
  suite_name : String
  rapid_family_name : String
  init_flows_family_name : String
  esri_table_family_name : String
  nc_to_zarr_family_name : String
  aws_family_name : String
  day_one_family_name : String
  prep_task_name : String
  esri_table_task_name : String
  day_one_task_name : String
  rapid_task_name : String
  init_flows_task_name : String
  nc_to_zarr_task_name : String
  aws_task_name : String
  rapid_exec : String
  rapid_exec_dir : String
  rapid_subprocess_dir : String
  forecast_records_dir : String
  nces_exec : String
  aws_config : String
deriving Repr, DecidableEq

/-- The suite assembled by `create`: suite name, suite variables, the direct
child tasks (the prep task) and the six stage families in creation order. -/
structure ESuite where
  name : String
  vars : List (String × String)
  tasks : List ETask
  families : List EFamily
deriving Repr, DecidableEq

/-- The in-memory suite built by `create` of `geoglows_forecast_job.py`, as a
function of the configuration and of the `workspace/input` directory listing
consumed by `get_valid_vpucode_list`. -/
def create (cfg : Config) (input_listing : List (String × Bool)) : ESuite :=
  let vpu_list := get_valid_vpucode_list input_listing
  { name := cfg.suite_name
    vars := [("ECF_INCLUDE", cfg.ecflow_home),
                  ("ECF_FILES", cfg.ecflow_home ++ "/" ++ cfg.suite_name),
                  ("ECF_HOME", cfg.ecflow_home),
                  ("ECF_BIN", if cfg.local_run then cfg.ecflow_bin else ""),
                  ("WORKSPACE", cfg.workspace)]
    tasks := [{ name := cfg.prep_task_name
                vars := [("PYSCRIPT", resourceScript "prep_rapid_forecast.py")]
                trigger := none }]
    families := [
      create_rapid_run_family cfg.rapid_family_name cfg.rapid_task_name
        vpu_list cfg.prep_task_name cfg.rapid_exec cfg.rapid_exec_dir
        cfg.rapid_subprocess_dir cfg.local_run,
      create_esri_table_family cfg.esri_table_family_name
        cfg.esri_table_task_name vpu_list cfg.nces_exec
        cfg.rapid_family_name cfg.local_run,
      create_nc_to_zarr_family cfg.nc_to_zarr_family_name
        cfg.nc_to_zarr_task_name vpu_list cfg.esri_table_family_name
        cfg.local_run,
      create_init_flows_family cfg.init_flows_family_name
        cfg.init_flows_task_name vpu_list cfg.nc_to_zarr_family_name
        cfg.local_run,
      create_day_one_family cfg.day_one_family_name cfg.day_one_task_name
        vpu_list cfg.forecast_records_dir cfg.init_flows_family_name
        cfg.local_run,
      create_aws_family cfg.aws_family_name cfg.aws_task_name vpu_list
        cfg.aws_config cfg.day_one_family_name cfg.local_run] }

/-- All trigger strings present in the built suite, in tree order. -/
def suiteTriggerStrings (s : ESuite) : List String :=
  s.tasks.filterMap ETask.trigger
    ++ s.families.flatMap (fun f =>
        f.trigger.toList ++ f.tasks.filterMap ETask.trigger)

/-- All task names present in the built suite, in tree order. -/
def suiteTaskNames (s : ESuite) : List String :=
  s.tasks.map ETask.name ++ s.families.flatMap (fun f => f.tasks.map ETask.name)

/-- A concrete configuration used to instantiate universally quantified
determinism statements. -/
def sampleConfig : Config :=
  { python_exec := "/usr/bin/python3"
    ecflow_home := "/home/ecflow"
    ecflow_bin := "/usr/bin/ecflow"
    workspace := "/ws"
    local_run := true
    suite_name := "geoglows_forecast"
    rapid_family_name := "rapid_run"
    init_flows_family_name := "init_flows"
    esri_table_family_name := "esri_table"
    nc_to_zarr_family_name := "nc_to_zarr"
    aws_family_name := "aws_archive"
    day_one_family_name := "day_one"
    prep_task_name := "prep_task"
    esri_table_task_name := "esri"
    day_one_task_name := "day1"
    rapid_task_name := "ens"
    init_flows_task_name := "init"
    nc_to_zarr_task_name := "zarr"
    aws_task_name := "aws"
    rapid_exec := "/opt/rapid/run"
    rapid_exec_dir := "/opt/rapid"
    rapid_subprocess_dir := "/opt/rapid/sub"
    forecast_records_dir := "/ws/records"
    nces_exec := "/usr/bin/nces"
    aws_config := "/ws/aws.yml" }

/-! ### Part B: ooflow expression objects and node model -/

/-- Class of an ecFlow node object (`ecflow.Suite`, `ecflow.Family`,
`ecflow.Task`). -/
inductive NKind where
  | suite
  | family
  | task
deriving Repr, DecidableEq

/-- A node tree as assembled through `add_family`/`add_task`: a name, the
object's class, and the children in insertion order. -/
inductive NTree where
  | mk (name : String) (kind : NKind) (children : List NTree)

/-- Name of the tree's root node. -/
def NTree.name : NTree → String
  | .mk n _ _ => n

/-- Class of the tree's root node. -/
def NTree.kind : NTree → NKind
  | .mk _ k _ => k

/-- Children of the tree's root node. -/
def NTree.children : NTree → List NTree
  | .mk _ _ cs => cs

/-- A forest of separately rooted node trees; distinct indices stand for
distinct root objects (Python object identity). -/
abbrev Forest := List NTree

/-- A node object, identified by its root object (tree index) and the name
chain from the root down to the node. -/
structure NodeRef where
  tIdx : Nat
  chain : List String
deriving Repr, DecidableEq

/-- Look up a child subtree by node name. -/
def findByName (ts : List NTree) (nm : String) : Option NTree :=
  ts.find? (fun t => t.name == nm)

/-- Walk down a tree following a chain of child names. -/
def descendNames (t : NTree) : List String → Option NTree
  | [] => some t
  | n :: rest =>
      match findByName t.children n with
      | some c => descendNames c rest
      | none => none

/-- The subtree denoted by a node reference, if the reference is valid. -/
def nodeAt (f : Forest) (r : NodeRef) : Option NTree :=
  match f.get? r.tIdx, r.chain with
  | some t, n :: rest => if t.name = n then descendNames t rest else none
  | _, _ => none

/-- The ancestor walk of `_Node_lineage_getter`, realised by structural
recursion on the reversed chain: dropping the head of the reversed chain is
dropping the last chain element, i.e. moving to the parent. -/
def lineageAux (t : Nat) : List String → List NodeRef
  | [] => []
  | x :: rest => ⟨t, (x :: rest).reverse⟩ :: lineageAux t rest

/-- `_Node_lineage_getter` of `ooflow.py`: the node followed by its ancestors
up to the root (the parent of a depth-one node is `NullNode`, which stops the
walk); a reference with an empty chain is its own lineage. -/
def lineage (r : NodeRef) : List NodeRef :=
  match lineageAux r.tIdx r.chain.reverse with
  | [] => [r]
  | l => l

/-- `_Node_descends_from` of `ooflow.py`: the other node occurs (by object
identity) in this node's lineage. -/
def descendsFrom (self other : NodeRef) : Bool :=
  (lineage self).any (fun node => decide (node = other))

/-- `_Node_root_getter` of `ooflow.py`: `lineage[-1]`. -/
def rootOf (r : NodeRef) : NodeRef := (lineage r).getLastD r

/-- `_Node_related_to` of `ooflow.py`. -/
def relatedTo (self other : NodeRef) : Bool :=
  descendsFrom self (rootOf other)

/-- `mrca` of `ooflow.py`: the first node of `a`'s lineage that `b` descends
from; `none` models the `NullNode` result. -/
def mrca (a b : NodeRef) : Option NodeRef :=
  (lineage a).find? (fun node => descendsFrom b node)

/-- `isinstance(·, ecflow.Suite)` for the object a reference denotes
(`NullNode` and dangling references are not suites). -/
def isSuiteRef (f : Forest) (r : NodeRef) : Bool :=
  match nodeAt f r with
  | some t => decide (t.kind = NKind.suite)
  | none => false

/-- Python `str.split(sep)` on the character list. -/
def splitAux (sep : Char) : List Char → List (List Char)
  | [] => [[]]
  | c :: rest =>
      let r := splitAux sep rest
      if c = sep then [] :: r
      else
        match r with
        | [] => [[c]]
        | h :: t => (c :: h) :: t

/-- Python `str.split(sep)` for a one-character separator. -/
def pySplit (sep : Char) (s : String) : List String :=
  (splitAux sep s.data).map (fun cs => String.mk cs)

/-- Python `os.path.basename` for slash paths: the substring after the last
separator, i.e. the last split component. -/
def pyBasename (p : String) : String := (pySplit '/' p).getLastD ""

/-- The prefix of the character list up to and including the last `'/'`
(`p[:p.rfind('/') + 1]`). -/
def takeUptoLastSlash : List Char → List Char
  | [] => []
  | c :: rest =>
      let r := takeUptoLastSlash rest
      if r.isEmpty then (if c = '/' then ['/'] else [])
      else c :: r

/-- Python `os.path.dirname`: the part before the last separator; a head made
only of separators is kept, otherwise trailing separators are stripped. -/
def pyDirname (p : String) : String :=
  let head := takeUptoLastSlash p.data
  if head ≠ [] ∧ head.any (fun c => c ≠ '/') then
    String.mk ((head.reverse.dropWhile (fun c => c = '/')).reverse)
  else String.mk head

/-- Python `str.startswith`. -/
def pyStartsWith (s pre : String) : Bool := pre.data.isPrefixOf s.data

/-- Python `str.endswith`. -/
def pyEndsWith (s suf : String) : Bool := suf.data.isSuffixOf s.data

/-- Python `sep.join(parts)`. -/
def pyJoin (sep : String) : List String → String
  | [] => ""
  | [x] => x
  | x :: rest => x ++ sep ++ pyJoin sep rest

/-- `genericpath.commonprefix` on two component lists: the length of their
longest common prefix. -/
def commonPrefixLen : List String → List String → Nat
  | a :: as, b :: bs => if a = b then commonPrefixLen as bs + 1 else 0
  | _, _ => 0

/-- `posixpath.relpath(path, start)` for normalized absolute inputs: drop the
common leading components, ascend with `..` for what remains of `start`, then
descend into the remainder of `path`. -/
def pyRelpath (path start : String) : String :=
  let sl := (pySplit '/' start).filter (fun x => x ≠ "")
  let pl := (pySplit '/' path).filter (fun x => x ≠ "")
  let i := commonPrefixLen sl pl
  let rel := List.replicate (sl.length - i) ".." ++ pl.drop i
  if rel.isEmpty then "." else pyJoin "/" rel

/-- `_relpath` of `ooflow.py` (the unused `start_parent_name` binding of the
source is omitted). -/
def relpathGiveUp (path start : String) : String :=
  let basename := pyBasename path
  if path = start then basename
  else
    let start_parent_path := pyDirname start
    let relpath := pyRelpath path start_parent_path
    if pyStartsWith relpath "../.." then path
    else if pyEndsWith relpath ".." then path
    else if relpath = "." then "../" ++ basename
    else relpath

/-- `get_abs_node_path`: the absolute slash path of the node. -/
def nodePath (r : NodeRef) : String := "/" ++ pyJoin "/" r.chain

/-- `_Node_path_relto` of `ooflow.py`. -/
def path_relto (f : Forest) (self other : NodeRef) : String :=
  if relatedTo other self then
    match mrca self other with
    | some m =>
        if isSuiteRef f m then nodePath self
        else relpathGiveUp (nodePath self) (nodePath other)
    | none => relpathGiveUp (nodePath self) (nodePath other)
  else ""

/-- The ooflow expression objects reachable from triggers: `NullBool`, string
and numeric literals (`NumLiteral` stores `str(value)`), node-state
comparisons (`Completed` etc., storing the state name), and the boolean
combinators `And`, `Or`, `Not`. -/
inductive Expr where
  | nullBool
  | strLit (value : String)
  | numLit (value : String)
  | nodeState (node : NodeRef) (state : String)
  | andE (left right : Expr)
  | orE (left right : Expr)
  | notE (operand : Expr)
deriving Repr, DecidableEq

/-- `isinstance(e, NullBool)`. -/
def Expr.isNull : Expr → Bool
  | .nullBool => true
  | _ => false

/-- The dispatch of `x & y` through `Bool.__and__` / `NullBool.__and__` /
`NullBool.op_and`: a `NullBool` operand degenerates the expression to the
other operand, otherwise `And(x, y)` is built. -/
def eand (a b : Expr) : Expr :=
  if a.isNull then b else if b.isNull then a else .andE a b

/-- The dispatch of `x | y`, symmetric to `eand`. -/
def eor (a b : Expr) : Expr :=
  if a.isNull then b else if b.isNull then a else .orE a b

/-- The dispatch of `~x` through `Bool.__invert__` / `NullBool.__invert__`. -/
def enot (a : Expr) : Expr :=
  if a.isNull then a else .notE a

/-- `visit_bin_bool_expr` after both operands were visited: `s1` and `s2` are
the visitor states after the left and right operand. -/
def renderBin (s1 s2 : String × Nat) (symb : String) (rank : Nat) :
    String × Nat :=
  if s1.1 = "" ∧ s2.1 = "" then ("", s2.2)
  else if s1.1 = "" then s2
  else if s2.1 = "" then s1
  else
    let leftText := if s1.2 < rank then "(" ++ s1.1 ++ ")" else s1.1
    let rightText := if s2.2 < rank then "(" ++ s2.1 ++ ")" else s2.1
    (leftText ++ " " ++ symb ++ " " ++ rightText, rank)

/-- `ExprRenderer` of `ooflow.py` as a state-passing function; the state is
the visitor's `(text, rank)` pair.  `NullBool.accept` leaves the state
untouched; a node state whose path does not render sets the text to `""` and
keeps the previous rank; ranks are `Or = 1`, `And = 2`, `Not = 3`,
node-state comparison = 4, literal = 99. -/
def renderE (f : Forest) (att : NodeRef) : Expr → String × Nat → String × Nat
  | .nullBool, s => s
  | .strLit v, _ => (v, 99)
  | .numLit v, _ => (v, 99)
  | .nodeState n st, s =>
      let target_path := path_relto f n att
      if target_path = "" then ("", s.2)
      else (target_path ++ " == " ++ st, 4)
  | .andE l r, s =>
      let s1 := renderE f att l s
      let s2 := renderE f att r s1
      renderBin s1 s2 "and" 2
  | .orE l r, s =>
      let s1 := renderE f att l s
      let s2 := renderE f att r s1
      renderBin s1 s2 "or" 1
  | .notE e, s =>
      let s1 := renderE f att e s
      if s1.1 = "" then s1
      else if s1.2 < 3 then ("not (" ++ s1.1 ++ ")", 3)
      else ("not " ++ s1.1, 3)

/-- `Operand.text`: render with a fresh `ExprRenderer` (text `""`, rank 99)
attached to the given node. -/
def exprText (f : Forest) (att : NodeRef) (e : Expr) : String :=
  (renderE f att e ("", 99)).1

/-- An element of the node list given to `all_complete`/`Trigger`: a bare
string or a node object. -/
inductive TrigItem where
  | str (s : String)
  | node (n : NodeRef)
deriving Repr, DecidableEq

/-- The per-item expression of `all_complete`: a string becomes the literal
`"{} == complete"`, a node becomes its `Completed` state. -/
def trigItemExpr : TrigItem → Expr
  | .str s => .strLit (s ++ " == complete")
  | .node n => .nodeState n "complete"

/-- `all_complete` of `ooflow.py`:
`reduce(lambda a, b: a & b, exprs, NullBool())`. -/
def all_complete (nodes : List TrigItem) : Expr :=
  (nodes.map trigItemExpr).foldl (fun a b => eand a b) Expr.nullBool

/-- The `Trigger` attribute object of `ooflow.py`, wrapping the expression;
for an iterable argument the constructor stores `all_complete(expr)`. -/
structure TriggerObj where
  expr : Expr
deriving Repr, DecidableEq

/-- `Trigger(nodes)` for an iterable of nodes. -/
def Trigger.ofNodes (nodes : List TrigItem) : TriggerObj :=
  ⟨all_complete nodes⟩

/-- `_Node_add_trigger` of `ooflow.py` on a `Trigger` whose stored expression
is an ooflow expression object: a `NullBool` expression deletes the node's
stored trigger, any other expression replaces it (delayed rendering).  The
first argument is the node's previously stored trigger. -/
def addTrigger (_stored : Option Expr) (t : TriggerObj) : Option Expr :=
  if t.expr.isNull then none else some t.expr

/-- A child node as seen by its container: Python object identity (`oid`) and
node name. -/
structure ChildNode where
  oid : Nat
  name : String
deriving Repr, DecidableEq

/-- The error raised on a sibling-name collision. -/
inductive AddChildError where
  | duplicateName (name : String)
deriving Repr, DecidableEq

/-- Modelled from the spec: the `addChild` behaviour behind
`_NodeContainer_add_task`/`_Task_add_to` is implemented in the external
ecflow library (only the delegating wrappers are in the repository).  Per
spec §4.2, re-adding the same object moves it to the end instead of
duplicating it, and adding a different object whose name collides with an
existing sibling fails with `DuplicateNameError`. -/
def addChild (children : List ChildNode) (c : ChildNode) :
    Except AddChildError (List ChildNode) :=
  if children.any (fun x => x.oid == c.oid) then
    .ok ((children.filter (fun x => x.oid != c.oid)) ++ [c])
  else if children.any (fun x => x.name == c.name) then
    .error (.duplicateName c.name)
  else
    .ok (children ++ [c])

/-- Modelled from the spec: the external scheduler's resolution of a rendered
trigger path.  An absolute path (leading `/`) names a suite by its root name
and descends by child names; a relative path is resolved against the parent
of the node carrying the trigger, `..` ascending one level (crossing above
the root is not supported) and any other component descending to the child
with that name. -/
def resolveStep (f : Forest) (acc : Option NodeRef) (c : String) :
    Option NodeRef :=
  match acc with
  | none => none
  | some r =>
      if c = ".." then
        if r.chain.length ≤ 1 then none
        else some ⟨r.tIdx, r.chain.dropLast⟩
      else
        let next : NodeRef := ⟨r.tIdx, r.chain ++ [c]⟩
        if (nodeAt f next).isSome then some next else none

/-- Modelled from the spec: full path resolution, one `resolveStep` per
component for a relative path, or a suite lookup by root name for an
absolute one. -/
def resolvePath (f : Forest) (att : NodeRef) (s : String) : Option NodeRef :=
  if pyStartsWith s "/" then
    let comps := (pySplit '/' s).filter (fun x => x ≠ "")
    match comps with
    | [] => none
    | rootName :: _ =>
        match f.findIdx? (fun t => t.name == rootName) with
        | some tIdx =>
            let r : NodeRef := ⟨tIdx, comps⟩
            if (nodeAt f r).isSome then some r else none
        | none => none
  else
    let comps := pySplit '/' s
    let start : Option NodeRef :=
      if att.chain.length ≤ 1 then none
      else some ⟨att.tIdx, att.chain.dropLast⟩
    comps.foldl (resolveStep f) start

/-- A usable node name: nonempty, without `/` or `.` characters. -/
def validName (s : String) : Bool :=
  s ≠ "" && s.data.all (fun c => c ≠ '/' && c ≠ '.')

/-- All strings in the list distinct. -/
def allDistinct : List String → Bool
  | [] => true
  | x :: xs => (!xs.contains x) && allDistinct xs

mutual

/-- Well-formed subtree: valid name, distinctly named children, children are
not suite objects, and children are themselves well-formed. -/
def wfTree : NTree → Bool
  | .mk n _ cs =>
      validName n && allDistinct (cs.map NTree.name)
        && cs.all (fun c => !(decide (c.kind = NKind.suite)))
        && wfTrees cs

/-- Well-formedness of a list of subtrees. -/
def wfTrees : List NTree → Bool
  | [] => true
  | t :: ts => wfTree t && wfTrees ts

end

/-- Well-formed forest: distinctly named suite roots, each tree
well-formed. -/
def wfForest (f : Forest) : Bool :=
  allDistinct (f.map NTree.name)
    && f.all (fun t => decide (t.kind = NKind.suite))
    && wfTrees f

/-- Each non-initial task is triggered by the completion of the previous task
in generation order. -/
def chainRel (a b : ETask) : Prop :=
  b.trigger = some (a.name ++ " == complete")

/-- The longest common prefix of two component lists (the list underlying
`commonPrefixLen`), used to state facts about the most recent common
ancestor. -/
def lcpL : List String → List String → List String
  | a :: as, b :: bs => if a = b then a :: lcpL as bs else []
  | _, _ => []

/-- A small concrete forest used to instantiate quantified statements: two
suites, the first holding two families of tasks. -/
def sampleForest : Forest :=
  [.mk "s1" .suite
      [.mk "f1" .family [.mk "t1" .task [], .mk "t2" .task []],
       .mk "f2" .family [.mk "t3" .task []]],
   .mk "s2" .suite [.mk "u" .task []]]

/-! ### Helper lemmas -/

lemma getD_of_get? {l : List String} {i : Nat} {v : String}
    (h : l.get? i = some v) : l.getD i "" = v := by
  have h' : l[i]? = some v := by simpa [← List.get?_eq_getElem?] using h
  simp [List.getD, h']

lemma chain_block (tn : String) (vl : List String) (i : Nat) (vpu : String) :
    List.Chain' chainRel (ensembleMembers.map (rapidEnsTask tn vl true i vpu)) := by
  show List.Chain' chainRel
    ([52, 51, 50, 49, 48, 47, 46, 45, 44, 43, 42, 41, 40, 39, 38, 37, 36, 35,
      34, 33, 32, 31, 30, 29, 28, 27, 26, 25, 24, 23, 22, 21, 20, 19, 18, 17,
      16, 15, 14, 13, 12, 11, 10, 9, 8, 7, 6, 5, 4, 3, 2, 1].map
        (rapidEnsTask tn vl true i vpu))
  simp [List.chain'_cons, chainRel, rapidEnsTask]

lemma rapid_chain_from (tn : String) (vl : List String) :
    ∀ (rest : List String) (i : Nat), vl.drop i = rest →
      List.Chain' chainRel (rapidEnsTasksFrom tn vl true i rest) ∧
      (rapidEnsTasksFrom tn vl true i rest).head? =
        rest.head?.map (fun v => rapidEnsTask tn vl true i v 52) := by
  intro rest
  induction rest with
  | nil => intro i _; exact ⟨List.chain'_nil, rfl⟩
  | cons v rs ih =>
      intro i hdrop
      have hdrop' : vl.drop (i + 1) = rs := by
        rw [← List.tail_drop, hdrop]; rfl
      have hget : vl[i]? = some v := by
        rw [← List.head?_drop, hdrop]; rfl
      obtain ⟨ihc, ihh⟩ := ih (i + 1) hdrop'
      constructor
      · show List.Chain' chainRel (_ ++ _)
        rw [List.chain'_append]
        refine ⟨chain_block tn vl i v, ihc, ?_⟩
        intro x hx y hy
        have hx' : x = rapidEnsTask tn vl true i v 1 := by
          have : (ensembleMembers.map (rapidEnsTask tn vl true i v)).getLast?
              = some (rapidEnsTask tn vl true i v 1) := rfl
          rw [this] at hx
          exact Option.mem_some_iff.mp hx |>.symm
        rw [ihh] at hy
        cases rs with
        | nil => simp at hy
        | cons v' rs' =>
            have hy' : y = rapidEnsTask tn vl true (i + 1) v' 52 := by
              simpa using hy.symm
            subst hx' hy'
            show (rapidEnsTask tn vl true (i + 1) v' 52).trigger = _
            simp [rapidEnsTask, chainRel, List.getD, hget]
      · rfl

lemma zarr_chain_from (tn : String) (vl : List String) :
    ∀ (rest : List String) (i : Nat), vl.drop i = rest →
      List.Chain' chainRel (zarrTasksFrom tn vl true i rest) ∧
      (zarrTasksFrom tn vl true i rest).head? =
        rest.head?.map (fun v => zarrTask tn vl true i v) := by
  intro rest
  induction rest with
  | nil => intro i _; exact ⟨List.chain'_nil, rfl⟩
  | cons v rs ih =>
      intro i hdrop
      have hdrop' : vl.drop (i + 1) = rs := by
        rw [← List.tail_drop, hdrop]; rfl
      have hget : vl[i]? = some v := by
        rw [← List.head?_drop, hdrop]; rfl
      obtain ⟨ihc, ihh⟩ := ih (i + 1) hdrop'
      refine ⟨?_, rfl⟩
      show List.Chain' chainRel (_ :: _)
      rw [List.chain'_cons']
      refine ⟨?_, ihc⟩
      intro y hy
      rw [ihh] at hy
      cases rs with
      | nil => simp at hy
      | cons v' rs' =>
          have hy' : y = zarrTask tn vl true (i + 1) v' := by
            simpa using hy.symm
          subst hy'
          show (zarrTask tn vl true (i + 1) v').trigger = _
          simp [zarrTask, chainRel, List.getD, hget]

lemma mem_rapidEnsTasksFrom (tn : String) (vl : List String) (loc : Bool) :
    ∀ (rest : List String) (n k : Nat) (vpu : String) (j : Nat),
      rest.get? k = some vpu → j ∈ ensembleMembers →
      rapidEnsTask tn vl loc (n + k) vpu j ∈ rapidEnsTasksFrom tn vl loc n rest := by
  intro rest
  induction rest with
  | nil => intro n k vpu j h _; simp at h
  | cons v rs ih =>
      intro n k vpu j hget hj
      cases k with
      | zero =>
          have hv : v = vpu := by simpa using hget
          subst hv
          show _ ∈ _ ++ _
          exact List.mem_append_left _ (List.mem_map_of_mem _ hj)
      | succ k' =>
          have hrec := ih (n + 1) k' vpu j (by simpa using hget) hj
          show _ ∈ _ ++ _
          refine List.mem_append_right _ ?_
          have harith : n + (k' + 1) = (n + 1) + k' := by omega
          rw [harith]
          exact hrec

lemma mem_ensembleMembers {j : Nat} (h1 : 1 ≤ j) (h2 : j ≤ 52) :
    j ∈ ensembleMembers := by
  unfold ensembleMembers
  rw [List.mem_reverse, List.mem_range'_1]
  omega

lemma rapidEnsTasksFrom_distributed (tn : String) (vl : List String) :
    ∀ (rest : List String) (i : Nat),
      (rapidEnsTasksFrom tn vl false i rest).all
        (fun t => decide (t.trigger = none)) = true := by
  intro rest
  induction rest with
  | nil => intro i; rfl
  | cons v rs ih =>
      intro i
      simp [rapidEnsTasksFrom, List.all_append, List.all_map, List.all_eq_true,
        rapidEnsTask, ih (i + 1)]

lemma zarrTasksFrom_distributed (tn : String) (vl : List String) :
    ∀ (rest : List String) (i : Nat),
      (zarrTasksFrom tn vl false i rest).all
        (fun t => decide (t.trigger = none)) = true := by
  intro rest
  induction rest with
  | nil => intro i; rfl
  | cons v rs ih =>
      intro i
      simp [zarrTasksFrom, zarrTask, ih (i + 1)]

lemma initFlowsTasksFrom_distributed (tn : String) (vl : List String) :
    ∀ (rest : List String) (i : Nat),
      (initFlowsTasksFrom tn vl false i rest).all
        (fun t => decide (t.trigger = none)) = true := by
  intro rest
  induction rest with
  | nil => intro i; rfl
  | cons v rs ih =>
      intro i
      simp [initFlowsTasksFrom, initFlowsTask, ih (i + 1)]

lemma esriTasksFrom_distributed (tn : String) (vl : List String) :
    ∀ (rest : List String) (i : Nat),
      (esriTasksFrom tn vl false i rest).all
        (fun t => decide (t.trigger = none)) = true := by
  intro rest
  induction rest with
  | nil => intro i; rfl
  | cons v rs ih =>
      intro i
      simp [esriTasksFrom, esriTask, ih (i + 1)]

lemma dayOneTasksFrom_distributed (tn : String) (vl : List String)
    (od : String) :
    ∀ (rest : List String) (i : Nat),
      (dayOneTasksFrom tn vl od false i rest).all
        (fun t => decide (t.trigger = none)) = true := by
  intro rest
  induction rest with
  | nil => intro i; rfl
  | cons v rs ih =>
      intro i
      simp [dayOneTasksFrom, dayOneTask, ih (i + 1)]

lemma awsTasksFrom_distributed (tn : String) (vl : List String) :
    ∀ (rest : List String) (i : Nat),
      (awsTasksFrom tn vl false i rest).all
        (fun t => decide (t.trigger = none)) = true := by
  intro rest
  induction rest with
  | nil => intro i; rfl
  | cons v rs ih =>
      intro i
      simp [awsTasksFrom, awsTask, ih (i + 1)]

/-! ### Longest-common-prefix lemmas -/

lemma lcpL_prefix_left : ∀ xs ys : List String, lcpL xs ys <+: xs
  | [], _ => by simp [lcpL]
  | _ :: _, [] => by simp [lcpL]
  | a :: as, b :: bs => by
      by_cases h : a = b
      · simpa [lcpL, h] using lcpL_prefix_left as bs
      · simp [lcpL, h]

lemma lcpL_prefix_right : ∀ xs ys : List String, lcpL xs ys <+: ys
  | [], _ => by simp [lcpL]
  | _ :: _, [] => by simp [lcpL]
  | a :: as, b :: bs => by
      by_cases h : a = b
      · subst h
        simpa [lcpL] using lcpL_prefix_right as bs
      · simp [lcpL, h]

lemma lcpL_of_prefix : ∀ xs ys : List String, xs <+: ys → lcpL xs ys = xs
  | [], _, _ => by simp [lcpL]
  | a :: as, [], h => by simp at h
  | a :: as, b :: bs, h => by
      rw [List.cons_prefix_cons] at h
      obtain ⟨rfl, h2⟩ := h
      simp [lcpL, lcpL_of_prefix as bs h2]

lemma lcpL_append_same :
    ∀ (x u v : List String), lcpL (x ++ u) (x ++ v) = x ++ lcpL u v
  | [], _, _ => by simp
  | a :: x', u, v => by simp [lcpL, lcpL_append_same x' u v]

lemma lcpL_concat_of_not_prefix :
    ∀ (zs ys : List String) (x : String), ¬ (zs ++ [x]) <+: ys →
      lcpL (zs ++ [x]) ys = lcpL zs ys
  | [], [], x, _ => by simp [lcpL]
  | [], y :: ys', x, h => by
      have hxy : x ≠ y := by
        intro he; subst he
        exact h (by simp)
      simp [lcpL, hxy]
  | z :: zs', [], x, _ => by simp [lcpL]
  | z :: zs', y :: ys', x, h => by
      by_cases hzy : z = y
      · subst hzy
        have h' : ¬ (zs' ++ [x]) <+: ys' := by
          intro hc; exact h (by simpa [List.cons_prefix_cons] using hc)
        simp [lcpL, lcpL_concat_of_not_prefix zs' ys' x h']
      · simp [lcpL, hzy]

lemma lcpL_head_mismatch :
    ∀ (xs ys : List String) (v : String),
      (xs.drop (lcpL xs ys).length).head? = some v →
      (ys.drop (lcpL xs ys).length).head? ≠ some v
  | [], ys, v => by simp [lcpL]
  | x :: xs', [], v => by simp [lcpL]
  | x :: xs', y :: ys', v => by
      by_cases hxy : x = y
      · subst hxy
        simpa [lcpL] using lcpL_head_mismatch xs' ys' v
      · intro h1 h2
        simp [lcpL, hxy] at h1 h2
        exact hxy (h1.trans h2.symm)

lemma commonPrefixLen_eq_lcpL :
    ∀ xs ys : List String, commonPrefixLen xs ys = (lcpL xs ys).length
  | [], _ => by cases ‹List String› <;> simp [commonPrefixLen, lcpL]
  | _ :: _, [] => by simp [commonPrefixLen, lcpL]
  | a :: as, b :: bs => by
      by_cases h : a = b
      · simp [commonPrefixLen, lcpL, h, commonPrefixLen_eq_lcpL as bs]
      · simp [commonPrefixLen, lcpL, h]

/-! ### Lineage and relationship lemmas -/

lemma mem_lineageAux_iff (t : Nat) :
    ∀ (m : List String) (r : NodeRef),
      r ∈ lineageAux t m ↔ r.tIdx = t ∧ r.chain ≠ [] ∧ r.chain.reverse <:+ m
  | [], r => by simp [lineageAux]
  | x :: rest, r => by
      rw [lineageAux, List.mem_cons, mem_lineageAux_iff t rest r]
      constructor
      · rintro (rfl | ⟨h1, h2, h3⟩)
        · refine ⟨rfl, by simp, ?_⟩
          simp
        · exact ⟨h1, h2, h3.trans (List.suffix_cons x rest)⟩
      · rintro ⟨h1, h2, h3⟩
        rw [List.suffix_cons_iff] at h3
        rcases h3 with h3 | h3
        · left
          cases r
          simp_all [← h3]
        · right; exact ⟨h1, h2, h3⟩

lemma lineage_of_ne_nil {t : Nat} {c : List String} (hc : c ≠ []) :
    lineage ⟨t, c⟩ = lineageAux t c.reverse := by
  unfold lineage
  obtain ⟨y, m, hm⟩ : ∃ y m, c.reverse = y :: m := by
    cases hr : c.reverse with
    | nil => exact absurd (by simpa using congrArg List.reverse hr) hc
    | cons y m => exact ⟨y, m, rfl⟩
  simp [hm, lineageAux]

lemma mem_lineage_iff {t : Nat} {c : List String} (hc : c ≠ []) (r : NodeRef) :
    r ∈ lineage ⟨t, c⟩ ↔ r.tIdx = t ∧ r.chain ≠ [] ∧ r.chain <+: c := by
  rw [lineage_of_ne_nil hc, mem_lineageAux_iff]
  constructor
  · rintro ⟨h1, h2, h3⟩
    exact ⟨h1, h2, by simpa using h3⟩
  · rintro ⟨h1, h2, h3⟩
    exact ⟨h1, h2, by simpa using h3⟩

lemma lineageAux_getLastD (t : Nat) (d : NodeRef) :
    ∀ (m : List String), m ≠ [] →
      (lineageAux t m).getLastD d = ⟨t, [m.getLastD ""]⟩
  | [], h => absurd rfl h
  | [x], _ => rfl
  | x :: y :: rest, _ => by
      rw [lineageAux, List.getLastD_cons]
      have h1 := lineageAux_getLastD t ⟨t, (x :: y :: rest).reverse⟩
        (y :: rest) (by simp)
      rw [h1]
      simp [List.getLastD_cons]

lemma rootOf_eq {t : Nat} {x : String} {xs : List String} :
    rootOf ⟨t, x :: xs⟩ = ⟨t, [x]⟩ := by
  unfold rootOf
  rw [lineage_of_ne_nil (by simp)]
  rw [lineageAux_getLastD t _ _ (by simp)]
  simp

lemma descendsFrom_iff {t' : Nat} {cb : List String} (hcb : cb ≠ [])
    (n : NodeRef) :
    descendsFrom ⟨t', cb⟩ n = true ↔
      n.tIdx = t' ∧ n.chain ≠ [] ∧ n.chain <+: cb := by
  unfold descendsFrom
  rw [List.any_eq_true]
  constructor
  · rintro ⟨m, hm, he⟩
    have : m = n := by simpa using he
    subst this
    exact (mem_lineage_iff hcb m).mp hm
  · intro h
    exact ⟨n, (mem_lineage_iff hcb n).mpr h, by simp⟩

lemma descendsFrom_false_of_ne_tIdx {t t' : Nat} {cb : List String}
    (hcb : cb ≠ []) {n : NodeRef} (hn : n.tIdx = t) (hne : t ≠ t') :
    descendsFrom ⟨t', cb⟩ n = false := by
  rw [Bool.eq_false_iff]
  intro hcontra
  have := (descendsFrom_iff hcb n).mp hcontra
  exact hne (hn ▸ this.1)

/-! ### mrca computation -/

lemma find_lineageAux (t : Nat) (cb : List String) (hcb : cb ≠ []) :
    ∀ m : List String,
      List.find? (fun n => descendsFrom ⟨t, cb⟩ n) (lineageAux t m)
        = if lcpL m.reverse cb = [] then none
          else some ⟨t, lcpL m.reverse cb⟩
  | [] => by simp [lineageAux, lcpL]
  | x :: rest => by
      rw [lineageAux, List.find?_cons]
      by_cases hpre : (x :: rest).reverse <+: cb
      · have hd : descendsFrom ⟨t, cb⟩ ⟨t, (x :: rest).reverse⟩ = true :=
          (descendsFrom_iff hcb _).mpr ⟨rfl, by simp, hpre⟩
        rw [hd]
        rw [ lcpL_of_prefix _ _ hpre]
        simp
      · have hd : descendsFrom ⟨t, cb⟩ ⟨t, (x :: rest).reverse⟩ = false := by
          rw [Bool.eq_false_iff]
          intro hc
          exact hpre ((descendsFrom_iff hcb _).mp hc).2.2
        rw [hd]
        rw [find_lineageAux t cb hcb rest]
        have heq : lcpL rest.reverse cb = lcpL (x :: rest).reverse cb := by
          have := lcpL_concat_of_not_prefix rest.reverse cb x
            (by simpa using hpre)
          simpa using this.symm
        rw [heq]

lemma mrca_eq_lcpL {t : Nat} {ca cb : List String} (hca : ca ≠ [])
    (hcb : cb ≠ []) (hlcp : lcpL ca cb ≠ []) :
    mrca ⟨t, ca⟩ ⟨t, cb⟩ = some ⟨t, lcpL ca cb⟩ := by
  unfold mrca
  rw [lineage_of_ne_nil hca, find_lineageAux t cb hcb]
  simp [hlcp]

/-! ### String split/join lemmas -/

lemma validName_spec {s : String} (h : validName s = true) :
    s.data ≠ [] ∧ ∀ ch ∈ s.data, ch ≠ '/' ∧ ch ≠ '.' := by
  unfold validName at h
  rw [Bool.and_eq_true] at h
  obtain ⟨h1, h2⟩ := h
  constructor
  · intro hd
    have : s = "" := String.ext (by simpa using hd)
    simp [this] at h1
  · intro ch hch
    have := (List.all_eq_true.mp h2) ch hch
    rw [Bool.and_eq_true] at this
    exact ⟨by simpa using this.1, by simpa using this.2⟩

lemma validName_ne_empty {s : String} (h : validName s = true) : s ≠ "" := by
  intro he
  exact (validName_spec h).1 (by simp [he])

lemma validName_no_slash {s : String} (h : validName s = true) :
    '/' ∉ s.data := fun hm => ((validName_spec h).2 '/' hm).1 rfl

lemma validName_ne_dotdot {s : String} (h : validName s = true) : s ≠ ".." := by
  intro he
  subst he
  exact ((validName_spec h).2 '.' (by decide)).2 rfl

lemma splitAux_sepFree : ∀ l : List Char, '/' ∉ l → splitAux '/' l = [l]
  | [], _ => rfl
  | c :: rest, h => by
      have hc : ¬ c = '/' := fun he => h (he ▸ List.mem_cons_self c rest)
      have hr := splitAux_sepFree rest (fun hm => h (List.mem_cons_of_mem c hm))
      simp [splitAux, hr, hc]

lemma splitAux_append : ∀ l₁ l₂ : List Char, '/' ∉ l₁ →
    splitAux '/' (l₁ ++ '/' :: l₂) = l₁ :: splitAux '/' l₂
  | [], l₂, _ => by simp [splitAux]
  | c :: l₁', l₂, h => by
      have hc : ¬ c = '/' := fun he => h (he ▸ List.mem_cons_self c l₁')
      have hr := splitAux_append l₁' l₂ (fun hm => h (List.mem_cons_of_mem c hm))
      simp only [List.cons_append, splitAux, hr]
      simp [hc]
      rw [hr]

lemma pyJoin_cons₂ (x y : String) (t : List String) :
    pyJoin "/" (x :: y :: t) = x ++ "/" ++ pyJoin "/" (y :: t) := rfl

lemma pySplit_join : ∀ comps : List String, comps ≠ [] →
    (∀ x ∈ comps, '/' ∉ x.data) → pySplit '/' (pyJoin "/" comps) = comps
  | [], h, _ => absurd rfl h
  | [x], _, h => by
      unfold pySplit pyJoin
      rw [splitAux_sepFree x.data (h x (by simp))]
      rfl
  | x :: y :: t, _, h => by
      have ih := pySplit_join (y :: t) (by simp)
        (fun z hz => h z (List.mem_cons_of_mem x hz))
      rw [pyJoin_cons₂]
      unfold pySplit
      have hdata : (x ++ "/" ++ pyJoin "/" (y :: t)).data
          = x.data ++ '/' :: (pyJoin "/" (y :: t)).data := by
        show (x.data ++ ['/']) ++ (pyJoin "/" (y :: t)).data = _
        simp
      rw [hdata, splitAux_append x.data _ (h x (by simp))]
      rw [List.map_cons]
      unfold pySplit at ih
      rw [ih]

lemma pySplit_slash_cons (s : String) :
    pySplit '/' ("/" ++ s) = "" :: pySplit '/' s := by
  unfold pySplit
  show ((splitAux '/' ('/' :: s.data)).map _) = _
  simp [splitAux]

lemma comps_of_slash_join {c : List String} (hc : c ≠ [])
    (hn : ∀ x ∈ c, validName x = true) :
    (pySplit '/' ("/" ++ pyJoin "/" c)).filter (fun x => x ≠ "") = c := by
  rw [pySplit_slash_cons,
    pySplit_join c hc (fun x hx => validName_no_slash (hn x hx))]
  have hfc : List.filter (fun x => x ≠ "") c = c := by
    rw [List.filter_eq_self]
    intro a ha
    simpa using validName_ne_empty (hn a ha)
  rw [List.filter_cons, hfc]
  simp

lemma pyBasename_slash_join {c : List String} (hc : c ≠ [])
    (hn : ∀ x ∈ c, validName x = true) :
    pyBasename ("/" ++ pyJoin "/" c) = c.getLastD "" := by
  unfold pyBasename
  rw [pySplit_slash_cons,
    pySplit_join c hc (fun x hx => validName_no_slash (hn x hx))]
  rw [List.getLastD_cons]

lemma pyJoin_append_single : ∀ (c : List String) (x : String), c ≠ [] →
    pyJoin "/" (c ++ [x]) = pyJoin "/" c ++ "/" ++ x
  | [], _, h => absurd rfl h
  | [y], x, _ => rfl
  | y :: z :: t, x, _ => by
      have ih := pyJoin_append_single (z :: t) x (by simp)
      show pyJoin "/" (y :: z :: (t ++ [x])) = _
      rw [pyJoin_cons₂]
      show y ++ "/" ++ pyJoin "/" ((z :: t) ++ [x]) = _
      rw [ih, pyJoin_cons₂]
      simp [String.append_assoc]

lemma takeUptoLastSlash_sepFree : ∀ m : List Char, '/' ∉ m →
    takeUptoLastSlash m = []
  | [], _ => rfl
  | c :: rest, h => by
      have hc : ¬ c = '/' := fun he => h (he ▸ List.mem_cons_self c rest)
      have hr := takeUptoLastSlash_sepFree rest
        (fun hm => h (List.mem_cons_of_mem c hm))
      simp [takeUptoLastSlash, hr, hc]

lemma takeUptoLastSlash_append : ∀ (l m : List Char), '/' ∉ m →
    takeUptoLastSlash (l ++ '/' :: m) = l ++ ['/']
  | [], m, h => by
      simp [takeUptoLastSlash, takeUptoLastSlash_sepFree m h]
  | c :: l', m, h => by
      have hr := takeUptoLastSlash_append l' m h
      simp [takeUptoLastSlash, hr]

lemma pyJoin_data_ne_nil {c : List String} (hc : c ≠ [])
    (hn : ∀ x ∈ c, validName x = true) : (pyJoin "/" c).data ≠ [] := by
  cases c with
  | nil => exact absurd rfl hc
  | cons x t =>
      cases t with
      | nil =>
          exact (validName_spec (hn x (by simp))).1
      | cons y t' =>
          rw [pyJoin_cons₂]
          show (x.data ++ ['/']) ++ _ ≠ []
          simp

lemma pyJoin_data_getLast :
    ∀ (c : List String) (x : String), c.getLast? = some x → x.data ≠ [] →
      (pyJoin "/" c).data.getLast? = x.data.getLast?
  | [], x, h, _ => by simp at h
  | [y], x, h, hx => by
      have : y = x := by simpa using h
      subst this
      rfl
  | y :: z :: t, x, h, hx => by
      have h' : (z :: t).getLast? = some x := by
        rw [List.getLast?_cons_cons] at h
        exact h
      have ih := pyJoin_data_getLast (z :: t) x h' hx
      obtain ⟨v, hv⟩ := Option.isSome_iff_exists.mp (List.getLast?_isSome.mpr hx)
      rw [hv] at ih
      rw [pyJoin_cons₂]
      show ((y.data ++ ['/']) ++ (pyJoin "/" (z :: t)).data).getLast? = _
      rw [List.getLast?_append, ih, hv]
      rfl

/-! ### Dirname, relpath and give-up-condition lemmas -/

lemma pyJoin_data_cons (x : String) (t : List String) :
    ∃ rest, (pyJoin "/" (x :: t)).data = x.data ++ rest := by
  cases t with
  | nil => exact ⟨[], by simp [pyJoin]⟩
  | cons y t' =>
      refine ⟨'/' :: (pyJoin "/" (y :: t')).data, ?_⟩
      rw [pyJoin_cons₂]
      show (x.data ++ ['/']) ++ (pyJoin "/" (y :: t')).data = _
      simp

lemma pyDirname_slash_single {x : String} (hx : validName x = true) :
    pyDirname ("/" ++ x) = "/" := by
  have h1 : takeUptoLastSlash (("/" ++ x).data) = ['/'] := by
    show takeUptoLastSlash ([] ++ '/' :: x.data) = [] ++ ['/']
    exact takeUptoLastSlash_append [] x.data (validName_no_slash hx)
  unfold pyDirname
  rw [h1]
  decide

lemma pyDirname_slash_join {c : List String} {x : String} (hc : c ≠ [])
    (hn : ∀ z ∈ c, validName z = true) (hx : validName x = true) :
    pyDirname ("/" ++ pyJoin "/" (c ++ [x])) = "/" ++ pyJoin "/" c := by
  have hjd : ("/" ++ pyJoin "/" (c ++ [x])).data
      = ('/' :: (pyJoin "/" c).data) ++ '/' :: x.data := by
    rw [pyJoin_append_single c x hc]
    show '/' :: (((pyJoin "/" c).data ++ ['/']) ++ x.data) = _
    simp
  have h1 : takeUptoLastSlash (("/" ++ pyJoin "/" (c ++ [x])).data)
      = ('/' :: (pyJoin "/" c).data) ++ ['/'] := by
    rw [hjd]
    exact takeUptoLastSlash_append _ _ (validName_no_slash hx)
  obtain ⟨w, hw⟩ := Option.isSome_iff_exists.mp (List.getLast?_isSome.mpr hc)
  have hwv : validName w = true := hn w (List.mem_of_getLast?_eq_some hw)
  obtain ⟨v, hv⟩ := Option.isSome_iff_exists.mp
    (List.getLast?_isSome.mpr (validName_spec hwv).1)
  have hjl : (pyJoin "/" c).data.getLast? = some v := by
    rw [pyJoin_data_getLast c w hw (validName_spec hwv).1, hv]
  have hvnslash : v ≠ '/' :=
    ((validName_spec hwv).2 v (List.mem_of_getLast?_eq_some hv)).1
  obtain ⟨l', hrev⟩ : ∃ l', (pyJoin "/" c).data.reverse = v :: l' := by
    have : (pyJoin "/" c).data.reverse.head? = some v := by
      rw [List.head?_reverse]; exact hjl
    cases hr : (pyJoin "/" c).data.reverse with
    | nil => rw [hr] at this; simp at this
    | cons a l' =>
        rw [hr] at this
        simp at this
        exact ⟨l', by rw [this]⟩
  unfold pyDirname
  rw [h1]
  have hcond : (('/' :: (pyJoin "/" c).data) ++ ['/']) ≠ [] ∧
      (('/' :: (pyJoin "/" c).data) ++ ['/']).any (fun ch => ch ≠ '/') = true := by
    refine ⟨by simp, ?_⟩
    rw [List.any_eq_true]
    exact ⟨v, by
      simp only [List.mem_append, List.mem_cons]
      exact Or.inl (Or.inr (List.mem_of_getLast?_eq_some hjl)), by simpa using hvnslash⟩
  rw [if_pos hcond]
  apply String.ext
  show ((('/' :: (pyJoin "/" c).data) ++ ['/']).reverse.dropWhile
      (fun ch => ch = '/')).reverse = '/' :: (pyJoin "/" c).data
  rw [List.reverse_append]
  simp only [List.reverse_cons, List.reverse_nil, List.nil_append]
  rw [show (['/'] : List Char) ++ ((pyJoin "/" c).data.reverse ++ ['/'])
      = '/' :: ((pyJoin "/" c).data.reverse ++ ['/']) from rfl]
  rw [List.dropWhile_cons]
  simp only [decide_True, if_true]
  rw [hrev]
  rw [show (v :: l') ++ ['/'] = v :: (l' ++ ['/']) from rfl]
  rw [List.dropWhile_cons]
  rw [if_neg (by simpa using hvnslash)]
  rw [show v :: (l' ++ ['/']) = (v :: l') ++ ['/'] from rfl, ← hrev]
  simp

lemma startsWith_dotdot₂ (t : List String) :
    pyStartsWith (pyJoin "/" (".." :: ".." :: t)) "../.." = true := by
  unfold pyStartsWith
  have h : ∃ rest, (pyJoin "/" (".." :: ".." :: t)).data
      = '.' :: '.' :: '/' :: '.' :: '.' :: rest := by
    cases t with
    | nil => exact ⟨[], rfl⟩
    | cons z t' => exact ⟨'/' :: (pyJoin "/" (z :: t')).data, rfl⟩
  obtain ⟨rest, hr⟩ := h
  rw [hr]
  simp only [List.isPrefixOf_iff_prefix]
  exact ⟨rest, rfl⟩

lemma startsWith_dotdot_of_name {n : String} (hn : validName n = true)
    (t : List String) : pyStartsWith (pyJoin "/" (n :: t)) "../.." = false := by
  obtain ⟨hne, hvs⟩ := validName_spec hn
  obtain ⟨h0, l0, hd⟩ : ∃ h0 l0, n.data = h0 :: l0 := by
    cases hdc : n.data with
    | nil => exact absurd hdc hne
    | cons a l => exact ⟨a, l, rfl⟩
  have hdot : h0 ≠ '.' := (hvs h0 (by rw [hd]; exact List.mem_cons_self h0 l0)).2
  obtain ⟨rest, hr⟩ := pyJoin_data_cons n t
  unfold pyStartsWith
  rw [hr, hd]
  show (['.', '.', '/', '.', '.'].isPrefixOf (h0 :: (l0 ++ rest))) = false
  have : (('.' : Char) == h0) = false := by simpa using (Ne.symm hdot)
  simp [List.isPrefixOf, this]

lemma startsWith_one_up_name {n : String} (hn : validName n = true)
    (t : List String) :
    pyStartsWith (pyJoin "/" (".." :: n :: t)) "../.." = false := by
  obtain ⟨hne, hvs⟩ := validName_spec hn
  obtain ⟨h0, l0, hd⟩ : ∃ h0 l0, n.data = h0 :: l0 := by
    cases hdc : n.data with
    | nil => exact absurd hdc hne
    | cons a l => exact ⟨a, l, rfl⟩
  have hdot : h0 ≠ '.' := (hvs h0 (by rw [hd]; exact List.mem_cons_self h0 l0)).2
  obtain ⟨rest, hr⟩ := pyJoin_data_cons n t
  unfold pyStartsWith
  rw [pyJoin_cons₂]
  have hdata : ((".." : String) ++ "/" ++ pyJoin "/" (n :: t)).data
      = '.' :: '.' :: '/' :: (pyJoin "/" (n :: t)).data := rfl
  rw [hdata, hr, hd]
  show (['.', '.', '/', '.', '.'].isPrefixOf
    ('.' :: '.' :: '/' :: h0 :: (l0 ++ rest))) = false
  have : (('.' : Char) == h0) = false := by simpa using (Ne.symm hdot)
  simp [List.isPrefixOf, this]

lemma startsWith_dotdot_single : pyStartsWith ".." "../.." = false := by decide

lemma endsWith_dotdot_single : pyEndsWith ".." ".." = true := by decide

lemma endsWith_two_dots_false {s : String} {v : Char}
    (hv : s.data.getLast? = some v) (hne : v ≠ '.') :
    pyEndsWith s ".." = false := by
  unfold pyEndsWith
  rw [Bool.eq_false_iff]
  intro hcon
  have hsuf : (("..").data) <:+ s.data := by
    simpa [List.isSuffixOf_iff_suffix] using hcon
  rw [show ("..").data = ['.', '.'] from rfl] at hsuf
  obtain ⟨pre, hpre⟩ := hsuf
  rw [← hpre, show pre ++ ['.', '.'] = (pre ++ ['.']) ++ ['.'] by simp,
    List.getLast?_concat] at hv
  exact hne (by simpa using hv.symm)

lemma join_ne_dot : ∀ rel : List String, rel ≠ [] →
    (∀ x ∈ rel, x = ".." ∨ validName x = true) → pyJoin "/" rel ≠ "."
  | [], h, _ => absurd rfl h
  | [x], _, h => by
      rcases h x (by simp) with h' | h'
      · subst h'; decide
      · intro he
        have hx : x.data = ['.'] := congrArg String.data he
        exact ((validName_spec h').2 '.' (by simp [hx])).2 rfl
  | x :: y :: t, _, _ => by
      intro he
      rw [pyJoin_cons₂] at he
      have hd : (x.data ++ ['/']) ++ (pyJoin "/" (y :: t)).data = ['.'] :=
        congrArg String.data he
      cases hx : x.data with
      | nil => rw [hx] at hd; simp at hd
      | cons a l => rw [hx] at hd; simp at hd

lemma startsWith_slash_false {rel : List String} (hne : rel ≠ [])
    (h : ∀ x ∈ rel, x = ".." ∨ validName x = true) :
    pyStartsWith (pyJoin "/" rel) "/" = false := by
  obtain ⟨x, t, rfl⟩ := List.exists_cons_of_ne_nil hne
  obtain ⟨c₀, l₀, hd, hc₀⟩ : ∃ c₀ l₀, x.data = c₀ :: l₀ ∧ c₀ ≠ '/' := by
    rcases h x (by simp) with h' | h'
    · subst h'; exact ⟨'.', ['.'], rfl, by decide⟩
    · obtain ⟨hne', hvs⟩ := validName_spec h'
      cases hdc : x.data with
      | nil => exact absurd hdc hne'
      | cons a l =>
          exact ⟨a, l, rfl, (hvs a (by rw [hdc]; exact List.mem_cons_self a l)).1⟩
  obtain ⟨rest, hr⟩ := pyJoin_data_cons x t
  unfold pyStartsWith
  rw [hr, hd]
  show (['/'].isPrefixOf (c₀ :: (l₀ ++ rest))) = false
  have : (('/' : Char) == c₀) = false := by simpa using (Ne.symm hc₀)
  simp [List.isPrefixOf, this]

lemma startsWith_slash_true (s : String) :
    pyStartsWith ("/" ++ s) "/" = true := by
  unfold pyStartsWith
  show (['/'].isPrefixOf ('/' :: s.data)) = true
  simp [List.isPrefixOf]

lemma slash_join_inj {c c' : List String} (hc : c ≠ []) (hc' : c' ≠ [])
    (hn : ∀ x ∈ c, validName x = true) (hn' : ∀ x ∈ c', validName x = true)
    (h : ("/" ++ pyJoin "/" c) = ("/" ++ pyJoin "/" c')) : c = c' := by
  have h2 : (pySplit '/' ("/" ++ pyJoin "/" c)).filter (fun x => x ≠ "")
      = (pySplit '/' ("/" ++ pyJoin "/" c')).filter (fun x => x ≠ "") := by
    rw [h]
  rw [comps_of_slash_join hc hn, comps_of_slash_join hc' hn'] at h2
  exact h2

lemma pyRelpath_eval {pl sl : List String} (hpl : pl ≠ []) (hsl : sl ≠ [])
    (hnp : ∀ x ∈ pl, validName x = true) (hns : ∀ x ∈ sl, validName x = true) :
    pyRelpath ("/" ++ pyJoin "/" pl) ("/" ++ pyJoin "/" sl)
      = (if (List.replicate (sl.length - commonPrefixLen sl pl) ".."
            ++ pl.drop (commonPrefixLen sl pl)).isEmpty then "."
         else pyJoin "/" (List.replicate (sl.length - commonPrefixLen sl pl) ".."
            ++ pl.drop (commonPrefixLen sl pl))) := by
  unfold pyRelpath
  rw [comps_of_slash_join hsl hns, comps_of_slash_join hpl hnp]

/-! ### Validity and well-formedness lemmas -/

lemma descendNames_append (u : NTree) :
    ∀ l₁ l₂ : List String, descendNames u (l₁ ++ l₂)
      = (descendNames u l₁).bind (fun w => descendNames w l₂)
  | [], l₂ => by simp [descendNames]
  | n :: l₁', l₂ => by
      show descendNames u (n :: (l₁' ++ l₂)) = _
      rw [descendNames, descendNames]
      cases hf : findByName u.children n with
      | none => rfl
      | some w => exact descendNames_append w l₁' l₂

lemma nodeAt_cons_some {f : Forest} {t : Nat} {n : String}
    {rest : List String} {tr : NTree} (hg : f.get? t = some tr) :
    nodeAt f ⟨t, n :: rest⟩
      = if tr.name = n then descendNames tr rest else none := by
  unfold nodeAt
  rw [hg]

lemma nodeAt_none {f : Forest} {t : Nat} {n : String} {rest : List String}
    (hg : f.get? t = none) : nodeAt f ⟨t, n :: rest⟩ = none := by
  unfold nodeAt
  rw [hg]

lemma nodeAt_isSome_ne_nil {f : Forest} {r : NodeRef}
    (h : (nodeAt f r).isSome = true) : r.chain ≠ [] := by
  intro hc
  unfold nodeAt at h
  rw [hc] at h
  cases hg : f.get? r.tIdx <;> rw [hg] at h <;> simp at h

lemma nodeAt_head {f : Forest} {t : Nat} {c : List String}
    (h : (nodeAt f ⟨t, c⟩).isSome = true) :
    ∃ tr c', f.get? t = some tr ∧ c = tr.name :: c' := by
  obtain ⟨n, c', rfl⟩ := List.exists_cons_of_ne_nil (nodeAt_isSome_ne_nil h)
  cases hg : f.get? t with
  | none => rw [nodeAt_none hg] at h; simp at h
  | some tr =>
      rw [nodeAt_cons_some hg] at h
      by_cases hname : tr.name = n
      · exact ⟨tr, c', rfl, by rw [hname]⟩
      · rw [if_neg hname] at h; simp at h

lemma nodeAt_prefix {f : Forest} {t : Nat} {c₁ c₂ : List String}
    (hc₁ : c₁ ≠ [])
    (h : (nodeAt f ⟨t, c₁ ++ c₂⟩).isSome = true) :
    (nodeAt f ⟨t, c₁⟩).isSome = true := by
  obtain ⟨n, c₁', rfl⟩ := List.exists_cons_of_ne_nil hc₁
  rw [List.cons_append] at h
  cases hg : f.get? t with
  | none => rw [nodeAt_none hg] at h; simp at h
  | some tr =>
      rw [nodeAt_cons_some hg] at h
      rw [nodeAt_cons_some hg]
      by_cases hname : tr.name = n
      · rw [if_pos hname] at h ⊢
        rw [descendNames_append] at h
        cases hd : descendNames tr c₁' with
        | none => rw [hd] at h; simp at h
        | some w => simp [hd]
      · rw [if_neg hname] at h; simp at h

lemma wfTrees_mem : ∀ {ts : List NTree}, wfTrees ts = true →
    ∀ {u : NTree}, u ∈ ts → wfTree u = true := by
  intro ts
  induction ts with
  | nil => intro _ u hu; simp at hu
  | cons v ts' ih =>
      intro h u hu
      rw [wfTrees, Bool.and_eq_true] at h
      rcases List.mem_cons.mp hu with rfl | hu'
      · exact h.1
      · exact ih h.2 hu'

lemma wfTree_parts {n : String} {k : NKind} {cs : List NTree}
    (h : wfTree (.mk n k cs) = true) :
    validName n = true ∧ wfTrees cs = true ∧
      ∀ c ∈ cs, c.kind ≠ NKind.suite := by
  rw [wfTree] at h
  simp only [Bool.and_eq_true] at h
  obtain ⟨⟨⟨h1, _⟩, h3⟩, h4⟩ := h
  refine ⟨h1, h4, ?_⟩
  intro c hc
  have := (List.all_eq_true.mp h3) c hc
  simpa using this

lemma wfTree_name {u : NTree} (h : wfTree u = true) :
    validName u.name = true := by
  cases u with
  | mk n k cs => exact (wfTree_parts h).1

lemma wfTree_children {u : NTree} (h : wfTree u = true) :
    wfTrees u.children = true := by
  cases u with
  | mk n k cs => exact (wfTree_parts h).2.1

lemma findByName_spec {ts : List NTree} {nm : String} {c : NTree}
    (h : findByName ts nm = some c) : c ∈ ts ∧ c.name = nm := by
  unfold findByName at h
  refine ⟨List.mem_of_find?_eq_some h, ?_⟩
  have := List.find?_some h
  simpa using this

lemma descend_wf {u : NTree} : ∀ {l : List String} {w : NTree},
    wfTree u = true → descendNames u l = some w →
    wfTree w = true ∧ ∀ nm ∈ l, validName nm = true := by
  intro l
  induction l generalizing u with
  | nil =>
      intro w hu hd
      simp only [descendNames] at hd
      exact ⟨by rw [← Option.some_inj.mp hd]; exact hu, by simp⟩
  | cons n rest ih =>
      intro w hu hd
      simp only [descendNames] at hd
      cases hf : findByName u.children n with
      | none => rw [hf] at hd; simp at hd
      | some c =>
          rw [hf] at hd
          obtain ⟨hcm, hcn⟩ := findByName_spec hf
          have hcw : wfTree c = true := wfTrees_mem (wfTree_children hu) hcm
          obtain ⟨hw, hrest⟩ := ih hcw hd
          refine ⟨hw, ?_⟩
          intro nm hnm
          rcases List.mem_cons.mp hnm with rfl | hnm'
          · rw [← hcn]; exact wfTree_name hcw
          · exact hrest nm hnm'

lemma wfForest_parts {f : Forest} (h : wfForest f = true) :
    allDistinct (f.map NTree.name) = true ∧
      (∀ tr ∈ f, tr.kind = NKind.suite) ∧ wfTrees f = true := by
  unfold wfForest at h
  simp only [Bool.and_eq_true] at h
  obtain ⟨⟨h1, h2⟩, h3⟩ := h
  refine ⟨h1, ?_, h3⟩
  intro tr htr
  have := (List.all_eq_true.mp h2) tr htr
  simpa using this

lemma chain_names_valid {f : Forest} {t : Nat} {c : List String}
    (hwf : wfForest f = true) (h : (nodeAt f ⟨t, c⟩).isSome = true) :
    ∀ nm ∈ c, validName nm = true := by
  obtain ⟨tr, c', hg, rfl⟩ := nodeAt_head h
  rw [nodeAt_cons_some hg, if_pos rfl] at h
  obtain ⟨w, hw⟩ := Option.isSome_iff_exists.mp h
  have htr : wfTree tr = true :=
    wfTrees_mem (wfForest_parts hwf).2.2 (List.get?_mem hg)
  obtain ⟨_, hrest⟩ := descend_wf htr hw
  intro nm hnm
  rcases List.mem_cons.mp hnm with rfl | hnm'
  · exact wfTree_name htr
  · exact hrest nm hnm'

lemma descend_not_suite {u : NTree} : ∀ {l : List String} {w : NTree},
    wfTree u = true → l ≠ [] → descendNames u l = some w →
    w.kind ≠ NKind.suite := by
  intro l
  induction l generalizing u with
  | nil => intro w _ hne _; exact absurd rfl hne
  | cons n rest ih =>
      intro w hu _ hd
      simp only [descendNames] at hd
      cases hf : findByName u.children n with
      | none => rw [hf] at hd; simp at hd
      | some c =>
          rw [hf] at hd
          obtain ⟨hcm, _⟩ := findByName_spec hf
          have hcw : wfTree c = true := wfTrees_mem (wfTree_children hu) hcm
          cases rest with
          | nil =>
              simp only [descendNames] at hd
              rw [← Option.some_inj.mp hd]
              cases u with
              | mk un uk ucs => exact (wfTree_parts hu).2.2 c hcm
          | cons m rest' => exact ih hcw (by simp) hd

lemma isSuiteRef_root {f : Forest} {t : Nat} {tr : NTree}
    (hwf : wfForest f = true) (hg : f.get? t = some tr) :
    isSuiteRef f ⟨t, [tr.name]⟩ = true := by
  unfold isSuiteRef
  have hnode : nodeAt f ⟨t, [tr.name]⟩ = some tr := by
    rw [nodeAt_cons_some hg, if_pos rfl]
    rfl
  rw [hnode]
  simpa using (wfForest_parts hwf).2.1 tr (List.get?_mem hg)

lemma isSuiteRef_deep {f : Forest} {t : Nat} {c : List String}
    (hwf : wfForest f = true) (hv : (nodeAt f ⟨t, c⟩).isSome = true)
    (hlen : 2 ≤ c.length) : isSuiteRef f ⟨t, c⟩ = false := by
  obtain ⟨tr, c', hg, hc⟩ := nodeAt_head hv
  have hc' : c' ≠ [] := by
    intro he
    rw [hc, he] at hlen
    simp at hlen
  unfold isSuiteRef
  obtain ⟨u, hu⟩ := Option.isSome_iff_exists.mp hv
  rw [hu]
  have hdn : descendNames tr c' = some u := by
    rw [hc, nodeAt_cons_some hg, if_pos rfl] at hu
    exact hu
  have htr : wfTree tr = true :=
    wfTrees_mem (wfForest_parts hwf).2.2 (List.get?_mem hg)
  simpa using descend_not_suite htr hc' hdn

lemma relatedTo_same_tree {f : Forest} {t : Nat} {ca cb : List String}
    (hva : (nodeAt f ⟨t, ca⟩).isSome = true)
    (hvb : (nodeAt f ⟨t, cb⟩).isSome = true) :
    relatedTo ⟨t, cb⟩ ⟨t, ca⟩ = true := by
  obtain ⟨tra, ca', hga, hca⟩ := nodeAt_head hva
  obtain ⟨trb, cb', hgb, hcb⟩ := nodeAt_head hvb
  have htr : tra = trb := by
    rw [hga] at hgb
    exact Option.some_inj.mp hgb
  unfold relatedTo
  rw [hca, rootOf_eq]
  rw [descendsFrom_iff (by rw [hcb]; simp)]
  refine ⟨rfl, by simp, ?_⟩
  rw [hcb, htr]
  exact ⟨cb', rfl⟩

lemma relatedTo_diff_tree {ta tb : Nat} {ca cb : List String}
    (hca : ca ≠ []) (hcb : cb ≠ []) (hne : ta ≠ tb) :
    relatedTo ⟨tb, cb⟩ ⟨ta, ca⟩ = false := by
  obtain ⟨na, ca', rfl⟩ := List.exists_cons_of_ne_nil hca
  unfold relatedTo
  rw [rootOf_eq]
  exact descendsFrom_false_of_ne_tIdx hcb rfl hne

lemma allDistinct_head {x : String} {xs : List String}
    (h : allDistinct (x :: xs) = true) : x ∉ xs ∧ allDistinct xs = true := by
  rw [allDistinct, Bool.and_eq_true] at h
  refine ⟨?_, h.2⟩
  have hc : xs.contains x = false := by simpa using h.1
  intro hm
  have : xs.contains x = true :=
    List.contains_iff_exists_mem_beq.mpr ⟨x, hm, by simp⟩
  rw [this] at hc
  exact Bool.noConfusion hc

lemma findIdx_of_distinct : ∀ (f : Forest) (iT : Nat) (tr : NTree),
    allDistinct (f.map NTree.name) = true → f.get? iT = some tr →
    f.findIdx? (fun u => u.name == tr.name) = some iT
  | [], iT, tr, _, h => by simp at h
  | u :: f', 0, tr, _, h => by
      have : u = tr := by simpa using h
      subst this
      simp [List.findIdx?_cons]
  | u :: f', iT + 1, tr, hd, h => by
      have h' : f'.get? iT = some tr := by simpa using h
      have hdp := allDistinct_head (by simpa using hd)
      have hne : (u.name == tr.name) = false := by
        rw [beq_eq_false_iff_ne]
        intro he
        exact hdp.1 (he ▸ List.mem_map_of_mem NTree.name (List.get?_mem h'))
      simp [List.findIdx?_cons, hne,
        findIdx_of_distinct f' iT tr hdp.2 h']

/-! ### Resolution lemmas -/

lemma pySplit_single {w : String} (hw : '/' ∉ w.data) :
    pySplit '/' w = [w] := by
  unfold pySplit
  rw [splitAux_sepFree w.data hw]
  rfl

lemma pySplit_dotdot_slash {w : String} (hw : '/' ∉ w.data) :
    pySplit '/' ("../" ++ w) = ["..", w] := by
  unfold pySplit
  have hd : (("../" : String) ++ w).data = ['.', '.'] ++ '/' :: w.data := rfl
  rw [hd, splitAux_append ['.', '.'] w.data (by decide),
    splitAux_sepFree w.data hw]
  rfl

lemma startsWith_dotdot_slash_false (w : String) :
    pyStartsWith ("../" ++ w) "/" = false := by
  unfold pyStartsWith
  show (['/'].isPrefixOf ('.' :: '.' :: '/' :: w.data)) = false
  simp [List.isPrefixOf]

lemma dropLast_append_getLastD {c : List String} (hc : c ≠ []) :
    c.dropLast ++ [c.getLastD ""] = c := by
  obtain ⟨w, hw⟩ := Option.isSome_iff_exists.mp (List.getLast?_isSome.mpr hc)
  have h1 : c.getLastD "" = w := by
    rw [List.getLastD_eq_getLast?, hw]
    rfl
  rw [h1]
  exact List.dropLast_append_getLast? w hw

lemma foldl_resolveStep_none (f : Forest) :
    ∀ l : List String, List.foldl (resolveStep f) none l = none
  | [] => rfl
  | c :: l' => by
      rw [List.foldl_cons]
      show List.foldl (resolveStep f) none l' = none
      exact foldl_resolveStep_none f l'

lemma resolve_descend (f : Forest) (t : Nat) :
    ∀ (cs c₀ : List String), c₀ ≠ [] →
      (∀ x ∈ cs, validName x = true) →
      (nodeAt f ⟨t, c₀ ++ cs⟩).isSome = true →
      List.foldl (resolveStep f) (some ⟨t, c₀⟩) cs = some ⟨t, c₀ ++ cs⟩
  | [], c₀, _, _, _ => by simp
  | n :: cs', c₀, hc₀, hv, hsome => by
      have hn := hv n (by simp)
      have hvalid : (nodeAt f ⟨t, c₀ ++ [n]⟩).isSome = true := by
        apply nodeAt_prefix (by simp)
        rw [show (c₀ ++ [n]) ++ cs' = c₀ ++ n :: cs' by simp]
        exact hsome
      have hstep : resolveStep f (some ⟨t, c₀⟩) n = some ⟨t, c₀ ++ [n]⟩ := by
        simp only [resolveStep]
        rw [if_neg (validName_ne_dotdot hn)]
        simp [hvalid]
      rw [List.foldl_cons, hstep]
      have hres := resolve_descend f t cs' (c₀ ++ [n]) (by simp)
        (fun x hx => hv x (by simp [hx]))
        (by rw [show (c₀ ++ [n]) ++ cs' = c₀ ++ n :: cs' by simp]; exact hsome)
      rw [hres]
      simp

lemma resolvePath_rel (f : Forest) (b : NodeRef) (s : String)
    (h : pyStartsWith s "/" = false) :
    resolvePath f b s = (pySplit '/' s).foldl (resolveStep f)
      (if b.chain.length ≤ 1 then none
       else some ⟨b.tIdx, b.chain.dropLast⟩) := by
  unfold resolvePath
  rw [h]
  simp

lemma resolvePath_abs (f : Forest) (b : NodeRef) {a : NodeRef}
    (hwf : wfForest f = true) (ha : (nodeAt f a).isSome = true) :
    resolvePath f b (nodePath a) = some a := by
  obtain ⟨t, ca⟩ := a
  obtain ⟨tr, ca', hg, hca⟩ := nodeAt_head ha
  subst hca
  have hnames := chain_names_valid hwf ha
  have hcomps : (pySplit '/' ("/" ++ pyJoin "/" (tr.name :: ca'))).filter
      (fun x => x ≠ "") = tr.name :: ca' :=
    comps_of_slash_join (by simp) hnames
  unfold resolvePath nodePath
  simp only [startsWith_slash_true, if_true, hcomps,
    findIdx_of_distinct f t tr (wfForest_parts hwf).1 hg]
  simp [ha]

lemma lcpL_nil_left (ys : List String) : lcpL [] ys = [] := by
  cases ys <;> rfl

lemma lcpL_nil_right (xs : List String) : lcpL xs [] = [] := by
  cases xs <;> rfl

lemma getLast?_drop_of_ne_nil {l : List String} {n : Nat}
    (h : l.drop n ≠ []) : (l.drop n).getLast? = l.getLast? := by
  obtain ⟨v, hv⟩ := Option.isSome_iff_exists.mp (List.getLast?_isSome.mpr h)
  conv_rhs => rw [← List.take_append_drop n l]
  rw [List.getLast?_append, hv]
  rfl

lemma name_startsWith_slash_false {w : String} (hw : validName w = true) :
    pyStartsWith w "/" = false := by
  have h1 : ([w] : List String) ≠ [] := by simp
  have := startsWith_slash_false h1
    (fun x hx => by
      have : x = w := by simpa using hx
      exact Or.inr (this ▸ hw))
  simpa [pyJoin] using this

lemma dropLast_ne_nil_of_two_le {l : List String} (h : 2 ≤ l.length) :
    l.dropLast ≠ [] := by
  intro hc
  have := congrArg List.length hc
  rw [List.length_dropLast] at this
  simp at this
  omega

lemma resolve_names_from_parent (f : Forest) (t : Nat) (cb names ca : List String)
    (hcb2 : 2 ≤ cb.length) (hne : names ≠ [])
    (hv : ∀ x ∈ names, validName x = true)
    (heq : cb.dropLast ++ names = ca)
    (ha : (nodeAt f ⟨t, ca⟩).isSome = true) :
    resolvePath f ⟨t, cb⟩ (pyJoin "/" names) = some ⟨t, ca⟩ := by
  rw [resolvePath_rel f _ _ (startsWith_slash_false hne (fun x hx => Or.inr (hv x hx)))]
  rw [pySplit_join names hne (fun x hx => validName_no_slash (hv x hx))]
  rw [if_neg (by simp; omega)]
  show List.foldl (resolveStep f) (some ⟨t, cb.dropLast⟩) names = _
  rw [← heq]
  exact resolve_descend f t names cb.dropLast (dropLast_ne_nil_of_two_le hcb2)
    hv (by rw [heq]; exact ha)

lemma resolve_up_names (f : Forest) (t : Nat) (cb names ca : List String)
    (hcb3 : 2 ≤ cb.dropLast.length) (_hne : names ≠ [])
    (hv : ∀ x ∈ names, validName x = true)
    (heq : cb.dropLast.dropLast ++ names = ca)
    (ha : (nodeAt f ⟨t, ca⟩).isSome = true) :
    resolvePath f ⟨t, cb⟩ (pyJoin "/" (".." :: names)) = some ⟨t, ca⟩ := by
  have hcomp : ∀ x ∈ (".." :: names), x = ".." ∨ validName x = true := by
    intro x hx
    rcases List.mem_cons.mp hx with rfl | hx'
    · exact Or.inl rfl
    · exact Or.inr (hv x hx')
  rw [resolvePath_rel f _ _ (startsWith_slash_false (by simp) hcomp)]
  rw [pySplit_join (".." :: names) (by simp) (fun x hx => by
    rcases List.mem_cons.mp hx with rfl | hx'
    · decide
    · exact validName_no_slash (hv x hx'))]
  have hcb2 : 2 ≤ cb.length := by
    have h2 := List.length_dropLast cb
    omega
  rw [if_neg (by simp; omega)]
  rw [List.foldl_cons]
  have hstep : resolveStep f (some ⟨t, cb.dropLast⟩) ".."
      = some ⟨t, cb.dropLast.dropLast⟩ := by
    simp only [resolveStep, if_true]
    rw [if_neg (by omega)]
  rw [hstep, ← heq]
  refine resolve_descend f t names cb.dropLast.dropLast ?_ hv
    (by rw [heq]; exact ha)
  intro hc
  have h1 : cb.dropLast.dropLast.length = 0 := by rw [hc]; rfl
  rw [List.length_dropLast] at h1
  omega

/-! ### Round-trip resolution of rendered relative paths -/

lemma getLastD_mem {c : List String} (hc : c ≠ []) : c.getLastD "" ∈ c := by
  obtain ⟨w, hw⟩ := Option.isSome_iff_exists.mp (List.getLast?_isSome.mpr hc)
  have h1 : c.getLastD "" = w := by
    rw [List.getLastD_eq_getLast?, hw]
    rfl
  rw [h1]
  exact List.mem_of_getLast?_eq_some hw

lemma relpathGiveUp_eq_self (p : String) : relpathGiveUp p p = pyBasename p := by
  unfold relpathGiveUp
  simp

lemma relpathGiveUp_of_ne {p s : String} (hne : p ≠ s) :
    relpathGiveUp p s
      = (if pyStartsWith (pyRelpath p (pyDirname s)) "../.." then p
         else if pyEndsWith (pyRelpath p (pyDirname s)) ".." then p
         else if pyRelpath p (pyDirname s) = "." then "../" ++ pyBasename p
         else pyRelpath p (pyDirname s)) := by
  unfold relpathGiveUp
  simp [hne]

lemma endsWith_join_last {rel : List String} {wl : String}
    (hwl : rel.getLast? = some wl) (hwlv : validName wl = true) :
    pyEndsWith (pyJoin "/" rel) ".." = false := by
  obtain ⟨v, hv⟩ := Option.isSome_iff_exists.mp
    (List.getLast?_isSome.mpr (validName_spec hwlv).1)
  have hjoinlast : (pyJoin "/" rel).data.getLast? = some v := by
    rw [pyJoin_data_getLast rel wl hwl (validName_spec hwlv).1]
    exact hv
  exact endsWith_two_dots_false hjoinlast
    ((validName_spec hwlv).2 v (List.mem_of_getLast?_eq_some hv)).2

lemma relpathGiveUp_names {pa pb : String} (hne : pa ≠ pb)
    {rel : List String} (hrelne : rel ≠ [])
    (hv : ∀ x ∈ rel, validName x = true)
    (hrp : pyRelpath pa (pyDirname pb) = pyJoin "/" rel) :
    relpathGiveUp pa pb = pyJoin "/" rel := by
  obtain ⟨w0, rest0, hw0⟩ := List.exists_cons_of_ne_nil hrelne
  have h1 : pyStartsWith (pyJoin "/" rel) "../.." = false := by
    rw [hw0]
    exact startsWith_dotdot_of_name (hv w0 (by rw [hw0]; simp)) rest0
  have h2 : pyEndsWith (pyJoin "/" rel) ".." = false := by
    obtain ⟨wl, hwl⟩ := Option.isSome_iff_exists.mp (List.getLast?_isSome.mpr hrelne)
    exact endsWith_join_last hwl (hv wl (List.mem_of_getLast?_eq_some hwl))
  have h3 : pyJoin "/" rel ≠ "." :=
    join_ne_dot rel hrelne (fun x hx => Or.inr (hv x hx))
  rw [relpathGiveUp_of_ne hne, hrp, h1, h2]
  simp [h3]

lemma relpathGiveUp_up_names {pa pb : String} (hne : pa ≠ pb)
    {names : List String} (hnne : names ≠ [])
    (hv : ∀ x ∈ names, validName x = true)
    (hrp : pyRelpath pa (pyDirname pb) = pyJoin "/" (".." :: names)) :
    relpathGiveUp pa pb = pyJoin "/" (".." :: names) := by
  obtain ⟨w0, rest0, hw0⟩ := List.exists_cons_of_ne_nil hnne
  have h1 : pyStartsWith (pyJoin "/" (".." :: names)) "../.." = false := by
    rw [hw0]
    exact startsWith_one_up_name (hv w0 (by rw [hw0]; simp)) rest0
  have h2 : pyEndsWith (pyJoin "/" (".." :: names)) ".." = false := by
    obtain ⟨wl, hwl⟩ := Option.isSome_iff_exists.mp (List.getLast?_isSome.mpr hnne)
    have hwl2 : (".." :: names).getLast? = some wl := by
      cases names with
      | nil => exact absurd rfl hnne
      | cons a l =>
          rw [List.getLast?_cons_cons]
          exact hwl
    exact endsWith_join_last hwl2 (hv wl (List.mem_of_getLast?_eq_some hwl))
  have h3 : pyJoin "/" (".." :: names) ≠ "." :=
    join_ne_dot _ (by simp) (fun x hx => by
      rcases List.mem_cons.mp hx with rfl | hx'
      · exact Or.inl rfl
      · exact Or.inr (hv x hx'))
  rw [relpathGiveUp_of_ne hne, hrp, h1, h2]
  simp [h3]

lemma relpathGiveUp_two_up {pa pb : String} (hne : pa ≠ pb) {rest : List String}
    (hrp : pyRelpath pa (pyDirname pb) = pyJoin "/" (".." :: ".." :: rest)) :
    relpathGiveUp pa pb = pa := by
  rw [relpathGiveUp_of_ne hne, hrp, startsWith_dotdot₂]
  simp

lemma relpathGiveUp_single_up {pa pb : String} (hne : pa ≠ pb)
    (hrp : pyRelpath pa (pyDirname pb) = "..") :
    relpathGiveUp pa pb = pa := by
  rw [relpathGiveUp_of_ne hne, hrp, startsWith_dotdot_single,
    endsWith_dotdot_single]
  simp

lemma relpathGiveUp_dot {pa pb : String} (hne : pa ≠ pb)
    (hrp : pyRelpath pa (pyDirname pb) = ".") :
    relpathGiveUp pa pb = "../" ++ pyBasename pa := by
  have h1 : pyStartsWith "." "../.." = false := by decide
  have h2 : pyEndsWith "." ".." = false := by decide
  rw [relpathGiveUp_of_ne hne, hrp, h1, h2]
  simp

lemma roundtrip_same_tree (f : Forest) (t : Nat) (ca cb : List String)
    (hwf : wfForest f = true)
    (ha : (nodeAt f ⟨t, ca⟩).isSome = true)
    (hb : (nodeAt f ⟨t, cb⟩).isSome = true) :
    resolvePath f ⟨t, cb⟩ (path_relto f ⟨t, ca⟩ ⟨t, cb⟩) = some ⟨t, ca⟩ := by
  have hca : ca ≠ [] := nodeAt_isSome_ne_nil ha
  have hcb : cb ≠ [] := nodeAt_isSome_ne_nil hb
  have hna : ∀ nm ∈ ca, validName nm = true := chain_names_valid hwf ha
  have hnb : ∀ nm ∈ cb, validName nm = true := chain_names_valid hwf hb
  obtain ⟨tra, ca', hga, hcaeq⟩ := nodeAt_head ha
  obtain ⟨trb, cb', hgb, hcbeq⟩ := nodeAt_head hb
  have htrab : tra = trb := by
    rw [hga] at hgb
    exact Option.some_inj.mp hgb
  subst htrab
  have hLne : lcpL ca cb ≠ [] := by
    rw [hcaeq, hcbeq]
    simp [lcpL]
  have hmr : mrca ⟨t, ca⟩ ⟨t, cb⟩ = some ⟨t, lcpL ca cb⟩ :=
    mrca_eq_lcpL hca hcb hLne
  have hrel : relatedTo ⟨t, cb⟩ ⟨t, ca⟩ = true := relatedTo_same_tree ha hb
  have hLa : lcpL ca cb <+: ca := lcpL_prefix_left ca cb
  have hLb : lcpL ca cb <+: cb := lcpL_prefix_right ca cb
  have hAeq : lcpL ca cb ++ ca.drop (lcpL ca cb).length = ca :=
    List.prefix_iff_eq_append.mp hLa
  have hBeq : lcpL ca cb ++ cb.drop (lcpL ca cb).length = cb :=
    List.prefix_iff_eq_append.mp hLb
  have hpath : path_relto f ⟨t, ca⟩ ⟨t, cb⟩
      = (if isSuiteRef f ⟨t, lcpL ca cb⟩ then nodePath ⟨t, ca⟩
         else relpathGiveUp (nodePath ⟨t, ca⟩) (nodePath ⟨t, cb⟩)) := by
    simp [path_relto, hrel, hmr]
  rw [hpath]
  by_cases hsuite : isSuiteRef f ⟨t, lcpL ca cb⟩ = true
  · rw [if_pos hsuite]
    exact resolvePath_abs f ⟨t, cb⟩ hwf ha
  · rw [if_neg hsuite]
    have hL2 : 2 ≤ (lcpL ca cb).length := by
      rcases hLsh : lcpL ca cb with _ | ⟨x, L2⟩
      · exact absurd hLsh hLne
      · rcases L2 with _ | ⟨y, L3⟩
        · exfalso
          apply hsuite
          have hx : x = tra.name := by
            have hp := hLa
            rw [hLsh, hcaeq] at hp
            exact (List.cons_prefix_cons.mp hp).1
          rw [hLsh, hx]
          exact isSuiteRef_root hwf hga
        · simp
    by_cases hab : ca = cb
    · subst hab
      rw [relpathGiveUp_eq_self]
      have hbase : pyBasename (nodePath ⟨t, ca⟩) = ca.getLastD "" := by
        show pyBasename ("/" ++ pyJoin "/" ca) = ca.getLastD ""
        exact pyBasename_slash_join hca hna
      rw [hbase]
      have hca2 : 2 ≤ ca.length := le_trans hL2 hLa.length_le
      exact resolve_names_from_parent f t ca [ca.getLastD ""] ca hca2
        (by simp)
        (fun x hx => by
          have hxe : x = ca.getLastD "" := by simpa using hx
          rw [hxe]
          exact hna _ (getLastD_mem hca))
        (dropLast_append_getLastD hca) ha
    · have hpne : nodePath ⟨t, ca⟩ ≠ nodePath ⟨t, cb⟩ := by
        intro h
        exact hab (slash_join_inj hca hcb hna hnb h)
      have hcb2 : 2 ≤ cb.length := le_trans hL2 hLb.length_le
      have hdlne : cb.dropLast ≠ [] := dropLast_ne_nil_of_two_le hcb2
      have hnbdl : ∀ x ∈ cb.dropLast, validName x = true :=
        fun x hx => hnb x (List.dropLast_subset cb hx)
      have hdir : pyDirname (nodePath ⟨t, cb⟩) = "/" ++ pyJoin "/" cb.dropLast := by
        show pyDirname ("/" ++ pyJoin "/" cb) = "/" ++ pyJoin "/" cb.dropLast
        conv_lhs => rw [← dropLast_append_getLastD hcb]
        exact pyDirname_slash_join hdlne hnbdl (hnb _ (getLastD_mem hcb))
      rcases hsb : cb.drop (lcpL ca cb).length with _ | ⟨z, sb₂⟩
      · have hcbL : cb = lcpL ca cb := by
          conv_lhs => rw [← hBeq]
          rw [hsb]
          simp
        have hLcb : cb <+: ca := by
          rw [hcbL]
          exact hLa
        have hpb2 : cb.dropLast <+: ca :=
          List.IsPrefix.trans ⟨[cb.getLastD ""], dropLast_append_getLastD hcb⟩ hLcb
        have heq : cb.dropLast ++ ca.drop cb.dropLast.length = ca :=
          List.prefix_iff_eq_append.mp hpb2
        have hjL : lcpL cb.dropLast ca = cb.dropLast := lcpL_of_prefix _ _ hpb2
        have hj : commonPrefixLen cb.dropLast ca = cb.dropLast.length := by
          rw [commonPrefixLen_eq_lcpL, hjL]
        have hlt : (lcpL ca cb).length < ca.length := by
          rcases Nat.lt_or_ge (lcpL ca cb).length ca.length with h | h
          · exact h
          · exfalso
            apply hab
            have h1 : lcpL ca cb = ca := hLa.eq_of_length_le h
            rw [← h1, ← hcbL]
        have hrelne : ca.drop cb.dropLast.length ≠ [] := by
          intro hnil
          have hlen := congrArg List.length hnil
          rw [List.length_drop] at hlen
          simp at hlen
          have hdll : cb.dropLast.length = cb.length - 1 := List.length_dropLast cb
          have hlcb : cb.length = (lcpL ca cb).length := by rw [← hcbL]
          omega
        have hvrel : ∀ x ∈ ca.drop cb.dropLast.length, validName x = true :=
          fun x hx => hna x (List.drop_subset _ _ hx)
        have hrpval : pyRelpath (nodePath ⟨t, ca⟩) (pyDirname (nodePath ⟨t, cb⟩))
            = pyJoin "/" (ca.drop cb.dropLast.length) := by
          rw [hdir]
          show pyRelpath ("/" ++ pyJoin "/" ca) ("/" ++ pyJoin "/" cb.dropLast) = _
          rw [pyRelpath_eval hca hdlne hna hnbdl, hj, Nat.sub_self]
          rw [List.replicate_zero, List.nil_append]
          obtain ⟨w0, rest0, hw0⟩ := List.exists_cons_of_ne_nil hrelne
          rw [hw0]
          simp only [List.isEmpty_cons, Bool.false_eq_true, if_false]
        have hgive := relpathGiveUp_names hpne hrelne hvrel hrpval
        rw [hgive]
        exact resolve_names_from_parent f t cb (ca.drop cb.dropLast.length) ca
          hcb2 hrelne hvrel heq ha
      · have hsbne : cb.drop (lcpL ca cb).length ≠ [] := by
          rw [hsb]
          simp
        have hdl_eq : cb.dropLast
            = lcpL ca cb ++ (cb.drop (lcpL ca cb).length).dropLast := by
          conv_lhs => rw [← hBeq]
          rw [List.dropLast_append_of_ne_nil _ hsbne]
        have hlendl : cb.dropLast.length
            = (lcpL ca cb).length + (cb.drop (lcpL ca cb).length).dropLast.length := by
          rw [hdl_eq, List.length_append]
        have hcb3 : 2 ≤ cb.dropLast.length := by omega
        have hj0 : lcpL (cb.drop (lcpL ca cb).length).dropLast
            (ca.drop (lcpL ca cb).length) = [] := by
          rcases hsd : (cb.drop (lcpL ca cb).length).dropLast with _ | ⟨p, ps⟩
          · exact lcpL_nil_left _
          · rcases hsa : ca.drop (lcpL ca cb).length with _ | ⟨q, qs⟩
            · exact lcpL_nil_right _
            · have hpz : p = z := by
                rw [hsb] at hsd
                cases sb₂ with
                | nil => simp at hsd
                | cons u us =>
                    rw [List.dropLast_cons₂] at hsd
                    injection hsd with hh1 hh2
                    exact hh1.symm
              have hheadca : (ca.drop (lcpL ca cb).length).head? = some q := by
                rw [hsa]
                rfl
              have hqz : q ≠ z := by
                intro he
                have hmm := lcpL_head_mismatch ca cb q hheadca
                rw [hsb] at hmm
                apply hmm
                rw [he]
                rfl
              have hne2 : ¬ (p = q) := fun he => hqz (he.symm.trans hpz)
              simp [lcpL, hne2]
        have hjeq : lcpL cb.dropLast ca = lcpL ca cb := by
          have h2 := lcpL_append_same (lcpL ca cb)
            ((cb.drop (lcpL ca cb).length).dropLast) (ca.drop (lcpL ca cb).length)
          rw [hj0, List.append_nil] at h2
          rw [← hdl_eq, hAeq] at h2
          exact h2
        have hj : commonPrefixLen cb.dropLast ca = (lcpL ca cb).length := by
          rw [commonPrefixLen_eq_lcpL, hjeq]
        have hk : cb.dropLast.length - (lcpL ca cb).length = sb₂.length := by
          have h3 : (List.drop (lcpL ca cb).length cb).length = sb₂.length + 1 := by
            rw [hsb]
            rfl
          have h4 : (List.drop (lcpL ca cb).length cb).dropLast.length
              = (List.drop (lcpL ca cb).length cb).length - 1 :=
            List.length_dropLast _
          omega
        have hrpval : pyRelpath (nodePath ⟨t, ca⟩) (pyDirname (nodePath ⟨t, cb⟩))
            = (if (List.replicate sb₂.length ".."
                  ++ ca.drop (lcpL ca cb).length).isEmpty then "."
               else pyJoin "/" (List.replicate sb₂.length ".."
                  ++ ca.drop (lcpL ca cb).length)) := by
          rw [hdir]
          show pyRelpath ("/" ++ pyJoin "/" ca) ("/" ++ pyJoin "/" cb.dropLast) = _
          rw [pyRelpath_eval hca hdlne hna hnbdl, hj, hk]
        rcases sb₂ with _ | ⟨z2, sb₃⟩
        · have hdlL : cb.dropLast = lcpL ca cb := by
            rw [hdl_eq, hsb]
            simp
          rcases hsa : ca.drop (lcpL ca cb).length with _ | ⟨q, qs⟩
          · have hcaL : ca = lcpL ca cb := by
              conv_lhs => rw [← hAeq]
              rw [hsa]
              simp
            have hrpdot : pyRelpath (nodePath ⟨t, ca⟩)
                (pyDirname (nodePath ⟨t, cb⟩)) = "." := by
              rw [hrpval, hsa]
              simp
            have hbase : pyBasename (nodePath ⟨t, ca⟩) = ca.getLastD "" := by
              show pyBasename ("/" ++ pyJoin "/" ca) = ca.getLastD ""
              exact pyBasename_slash_join hca hna
            have hgive := relpathGiveUp_dot hpne hrpdot
            rw [hgive, hbase]
            have hstr : ("../" ++ ca.getLastD "" : String)
                = pyJoin "/" ["..", ca.getLastD ""] := rfl
            rw [hstr]
            have hdl2 : cb.dropLast.dropLast ++ [ca.getLastD ""] = ca := by
              rw [hdlL, ← hcaL]
              exact dropLast_append_getLastD hca
            exact resolve_up_names f t cb [ca.getLastD ""] ca hcb3
              (by simp)
              (fun x hx => by
                have hxe : x = ca.getLastD "" := by simpa using hx
                rw [hxe]
                exact hna _ (getLastD_mem hca))
              hdl2 ha
          · have hrelne2 : ca.drop (lcpL ca cb).length ≠ [] := by
              rw [hsa]
              simp
            have hvrel : ∀ x ∈ ca.drop (lcpL ca cb).length, validName x = true :=
              fun x hx => hna x (List.drop_subset _ _ hx)
            have hrpval2 : pyRelpath (nodePath ⟨t, ca⟩)
                (pyDirname (nodePath ⟨t, cb⟩))
                = pyJoin "/" (ca.drop (lcpL ca cb).length) := by
              rw [hrpval, hsa]
              simp
            have hgive := relpathGiveUp_names hpne hrelne2 hvrel hrpval2
            rw [hgive]
            have heq2 : cb.dropLast ++ ca.drop (lcpL ca cb).length = ca := by
              rw [hdlL]
              exact hAeq
            exact resolve_names_from_parent f t cb (ca.drop (lcpL ca cb).length) ca
              hcb2 hrelne2 hvrel heq2 ha
        · rcases sb₃ with _ | ⟨z3, sb₄⟩
          · rcases hsa : ca.drop (lcpL ca cb).length with _ | ⟨q, qs⟩
            · have hrpup : pyRelpath (nodePath ⟨t, ca⟩)
                  (pyDirname (nodePath ⟨t, cb⟩)) = ".." := by
                rw [hrpval, hsa]
                simp [pyJoin, List.replicate]
              have hgive := relpathGiveUp_single_up hpne hrpup
              rw [hgive]
              exact resolvePath_abs f ⟨t, cb⟩ hwf ha
            · have hrelne2 : ca.drop (lcpL ca cb).length ≠ [] := by
                rw [hsa]
                simp
              have hvrel : ∀ x ∈ ca.drop (lcpL ca cb).length, validName x = true :=
                fun x hx => hna x (List.drop_subset _ _ hx)
              have hrpval2 : pyRelpath (nodePath ⟨t, ca⟩)
                  (pyDirname (nodePath ⟨t, cb⟩))
                  = pyJoin "/" (".." :: ca.drop (lcpL ca cb).length) := by
                rw [hrpval, hsa]
                simp [List.replicate]
              have hgive := relpathGiveUp_up_names hpne hrelne2 hvrel hrpval2
              rw [hgive]
              have hdl1 : cb.dropLast = lcpL ca cb ++ [z] := by
                rw [hdl_eq, hsb]
                simp
              have hdl2 : cb.dropLast.dropLast = lcpL ca cb := by
                rw [hdl1]
                simp
              have heq2 : cb.dropLast.dropLast
                  ++ ca.drop (lcpL ca cb).length = ca := by
                rw [hdl2]
                exact hAeq
              exact resolve_up_names f t cb (ca.drop (lcpL ca cb).length) ca
                hcb3 hrelne2 hvrel heq2 ha
          · have hrep : List.replicate (z2 :: z3 :: sb₄).length ".."
                = ".." :: ".." :: List.replicate sb₄.length ".." := by
              simp [List.replicate_succ]
            have hrpval2 : pyRelpath (nodePath ⟨t, ca⟩)
                (pyDirname (nodePath ⟨t, cb⟩))
                = pyJoin "/" (".." :: ".." :: (List.replicate sb₄.length ".."
                    ++ ca.drop (lcpL ca cb).length)) := by
              rw [hrpval, hrep]
              simp
            have hgive := relpathGiveUp_two_up hpne hrpval2
            rw [hgive]
            exact resolvePath_abs f ⟨t, cb⟩ hwf ha

/-! ### Claim theorems -/

/-- C1.  For basins `["102", "103"]` in local mode, `create_rapid_run_family`
with task name `ens` produces task `ens_103_52` with trigger
`ens_102_1 == complete` and task `ens_102_51` with trigger
`ens_102_52 == complete`; in general each basin's chain runs from member 52
down to member 1 (member `j < 52` is triggered by member `j + 1` of the same
basin) and basin `i`'s member 52 (`i > 0`) is triggered by member 1 of
basin `i - 1`. -/
theorem claim1 :
    ((((create_rapid_run_family "rapid_run" "ens" ["102", "103"] "prep" "re"
          "red" "rsd" true).tasks.find? (fun t => t.name == "ens_103_52")).map
            ETask.trigger = some (some "ens_102_1 == complete")) ∧
      (((create_rapid_run_family "rapid_run" "ens" ["102", "103"] "prep" "re"
          "red" "rsd" true).tasks.find? (fun t => t.name == "ens_102_51")).map
            ETask.trigger = some (some "ens_102_52 == complete"))) ∧
    (∀ (fn tn tr re red rsd : String) (vl : List String) (i : Nat)
        (vpu : String) (j : Nat), vl.get? i = some vpu → 1 ≤ j → j < 52 →
        ({ name := taskLabel tn vpu j,
           vars := [("JOB_ID", "job_" ++ vpu ++ "_" ++ toString j)],
           trigger := some (taskLabel tn vpu (j + 1) ++ " == complete") } : ETask)
          ∈ (create_rapid_run_family fn tn vl tr re red rsd true).tasks) ∧
    (∀ (fn tn tr re red rsd : String) (vl : List String) (i : Nat)
        (vpu prev : String), vl.get? i = some vpu → 0 < i →
        vl.get? (i - 1) = some prev →
        ({ name := taskLabel tn vpu 52,
           vars := [("JOB_ID", "job_" ++ vpu ++ "_" ++ toString 52)],
           trigger := some (taskLabel tn prev 1 ++ " == complete") } : ETask)
          ∈ (create_rapid_run_family fn tn vl tr re red rsd true).tasks) := by
  refine ⟨⟨by decide, by decide⟩, ?_, ?_⟩
  · intro fn tn tr re red rsd vl i vpu j hget h1 h2
    have hmem := mem_rapidEnsTasksFrom tn vl true vl 0 i vpu j hget
      (mem_ensembleMembers h1 (by omega))
    rw [Nat.zero_add] at hmem
    have heq : rapidEnsTask tn vl true i vpu j =
        ({ name := taskLabel tn vpu j,
           vars := [("JOB_ID", "job_" ++ vpu ++ "_" ++ toString j)],
           trigger := some (taskLabel tn vpu (j + 1) ++ " == complete") } : ETask) := by
      simp [rapidEnsTask, Nat.mod_eq_of_lt h2,
        (show ¬ 52 < j + 1 by omega), (show j ≠ 52 by omega)]
    have htasks : (create_rapid_run_family fn tn vl tr re red rsd true).tasks
        = rapidEnsTasksFrom tn vl true 0 vl := rfl
    rw [htasks, ← heq]
    exact hmem
  · intro fn tn tr re red rsd vl i vpu prev hget hi hprev
    have hmem := mem_rapidEnsTasksFrom tn vl true vl 0 i vpu 52 hget (by decide)
    rw [Nat.zero_add] at hmem
    have heq : rapidEnsTask tn vl true i vpu 52 =
        ({ name := taskLabel tn vpu 52,
           vars := [("JOB_ID", "job_" ++ vpu ++ "_" ++ toString 52)],
           trigger := some (taskLabel tn prev 1 ++ " == complete") } : ETask) := by
      have hprev' : vl[i - 1]? = some prev := by
        simpa [← List.get?_eq_getElem?] using hprev
      simp [rapidEnsTask, hi, List.getD, hprev']
    have htasks : (create_rapid_run_family fn tn vl tr re red rsd true).tasks
        = rapidEnsTasksFrom tn vl true 0 vl := rfl
    rw [htasks, ← heq]
    exact hmem

/-- Witness for C1: both general chain clauses evaluated at the
two-basin scenario. -/
theorem claim1_witness :
    (({ name := taskLabel "ens" "102" 51,
        vars := [("JOB_ID", "job_" ++ "102" ++ "_" ++ toString 51)],
        trigger := some (taskLabel "ens" "102" 52 ++ " == complete") } : ETask)
      ∈ (create_rapid_run_family "rapid_run" "ens" ["102", "103"] "prep" "re"
          "red" "rsd" true).tasks) ∧
    (({ name := taskLabel "ens" "103" 52,
        vars := [("JOB_ID", "job_" ++ "103" ++ "_" ++ toString 52)],
        trigger := some (taskLabel "ens" "102" 1 ++ " == complete") } : ETask)
      ∈ (create_rapid_run_family "rapid_run" "ens" ["102", "103"] "prep" "re"
          "red" "rsd" true).tasks) :=
  ⟨claim1.2.1 "rapid_run" "ens" "prep" "re" "red" "rsd" ["102", "103"] 0 "102"
      51 (by decide) (by decide) (by decide),
   claim1.2.2 "rapid_run" "ens" "prep" "re" "red" "rsd" ["102", "103"] 1 "103"
      "102" (by decide) (by decide) (by decide)⟩

/-- C2.  In local mode, for every non-empty basin list, the first task of the
ensemble family and of the nc-to-zarr family carries no task-level trigger,
and every later task carries exactly one trigger, referencing exactly the
previous task's `complete` state (`chainRel`), so no two units of work can
run concurrently. -/
theorem claim2 (fn tn tr re red rsd zfn ztn ztr : String) (vl : List String)
    (hne : vl ≠ []) :
    ((create_rapid_run_family fn tn vl tr re red rsd true).tasks.head?).map
        ETask.trigger = some none ∧
    List.Chain' chainRel
      (create_rapid_run_family fn tn vl tr re red rsd true).tasks ∧
    ((create_nc_to_zarr_family zfn ztn vl ztr true).tasks.head?).map
        ETask.trigger = some none ∧
    List.Chain' chainRel (create_nc_to_zarr_family zfn ztn vl ztr true).tasks := by
  obtain ⟨v, rs, rfl⟩ := List.exists_cons_of_ne_nil hne
  have hr := rapid_chain_from tn (v :: rs) (v :: rs) 0 (by simp)
  have hz := zarr_chain_from ztn (v :: rs) (v :: rs) 0 (by simp)
  refine ⟨?_, hr.1, ?_, hz.1⟩
  · show ((rapidEnsTasksFrom tn (v :: rs) true 0 (v :: rs)).head?).map
        ETask.trigger = some none
    rw [hr.2]
    simp [rapidEnsTask]
  · show ((zarrTasksFrom ztn (v :: rs) true 0 (v :: rs)).head?).map
        ETask.trigger = some none
    rw [hz.2]
    simp [zarrTask]

/-- Witness for C2: the two-basin local scenario. -/
theorem claim2_witness :
    (["102", "103"] : List String) ≠ [] ∧
    ((create_rapid_run_family "rapid_run" "ens" ["102", "103"] "prep" "re"
        "red" "rsd" true).tasks.head?).map ETask.trigger = some none ∧
    List.Chain' chainRel (create_rapid_run_family "rapid_run" "ens"
      ["102", "103"] "prep" "re" "red" "rsd" true).tasks :=
  ⟨by decide,
   (claim2 "rapid_run" "ens" "prep" "re" "red" "rsd" "nc" "zarr" "esri"
      ["102", "103"] (by decide)).1,
   (claim2 "rapid_run" "ens" "prep" "re" "red" "rsd" "nc" "zarr" "esri"
      ["102", "103"] (by decide)).2.1⟩

/-- C3.  In distributed mode (`is_local = false`), for every basin list, no
per-member task produced by any of the six stage-family constructors carries
a trigger; the only trigger attached is the stage-level family trigger
referencing the predecessor's completion. -/
theorem claim3 (fn tn tr re red rsd zfn ztn ztr ifn itn itr efn etn nexe etr
    dfn dtn od dtr afn atn ac atr : String) (vl : List String) :
    ((create_rapid_run_family fn tn vl tr re red rsd false).tasks.all
        (fun t => decide (t.trigger = none)) = true ∧
      (create_rapid_run_family fn tn vl tr re red rsd false).trigger
        = some (tr ++ " == complete")) ∧
    ((create_nc_to_zarr_family zfn ztn vl ztr false).tasks.all
        (fun t => decide (t.trigger = none)) = true ∧
      (create_nc_to_zarr_family zfn ztn vl ztr false).trigger
        = some (ztr ++ " == complete")) ∧
    ((create_init_flows_family ifn itn vl itr false).tasks.all
        (fun t => decide (t.trigger = none)) = true ∧
      (create_init_flows_family ifn itn vl itr false).trigger
        = some (itr ++ " == complete")) ∧
    ((create_esri_table_family efn etn vl nexe etr false).tasks.all
        (fun t => decide (t.trigger = none)) = true ∧
      (create_esri_table_family efn etn vl nexe etr false).trigger
        = some (etr ++ " == complete")) ∧
    ((create_day_one_family dfn dtn vl od dtr false).tasks.all
        (fun t => decide (t.trigger = none)) = true ∧
      (create_day_one_family dfn dtn vl od dtr false).trigger
        = some (dtr ++ " == complete")) ∧
    ((create_aws_family afn atn vl ac atr false).tasks.all
        (fun t => decide (t.trigger = none)) = true ∧
      (create_aws_family afn atn vl ac atr false).trigger
        = some (atr ++ " == complete")) :=
  ⟨⟨rapidEnsTasksFrom_distributed tn vl vl 0, rfl⟩,
   ⟨zarrTasksFrom_distributed ztn vl vl 0, rfl⟩,
   ⟨initFlowsTasksFrom_distributed itn vl vl 0, rfl⟩,
   ⟨esriTasksFrom_distributed etn vl vl 0, rfl⟩,
   ⟨dayOneTasksFrom_distributed dtn vl od vl 0, rfl⟩,
   ⟨awsTasksFrom_distributed atn vl vl 0, rfl⟩⟩

/-- C4.  Building the graph twice from identical configuration (and identical
`workspace/input` directory listing) produces byte-identical trigger strings
and identical task-name lists. -/
theorem claim4 (c₁ c₂ : Config) (l₁ l₂ : List (String × Bool))
    (hc : c₁ = c₂) (hl : l₁ = l₂) :
    suiteTriggerStrings (create c₁ l₁) = suiteTriggerStrings (create c₂ l₂) ∧
    suiteTaskNames (create c₁ l₁) = suiteTaskNames (create c₂ l₂) := by
  subst hc; subst hl; exact ⟨rfl, rfl⟩

/-- Witness for C4: the sample configuration with a one-entry listing. -/
theorem claim4_witness :
    suiteTriggerStrings (create sampleConfig [("102", true)])
      = suiteTriggerStrings (create sampleConfig [("102", true)]) ∧
    suiteTaskNames (create sampleConfig [("102", true)])
      = suiteTaskNames (create sampleConfig [("102", true)]) :=
  claim4 sampleConfig sampleConfig [("102", true)] [("102", true)] rfl rfl

/-- C5.  Building the ensemble stage family with an empty basin list does not
fail: the constructor returns the family with its stage trigger and
variables and zero child tasks. -/
theorem claim5 (fn tn tr re red rsd : String) (loc : Bool) :
    create_rapid_run_family fn tn [] tr re red rsd loc =
      { name := fn
        trigger := some (tr ++ " == complete")
        vars := [("PYSCRIPT", resourceScript "run_rapid_forecast.py"),
                 ("RAPID_EXEC", re), ("EXEC_DIR", red),
                 ("SUBPROCESS_DIR", rsd)]
        tasks := [] } := rfl

/-- C6.  The trigger-expression algebra absorbs the `NullBool` identity:
`and(Empty, x) = x`, `or(Empty, x) = x` and `not(Empty) = Empty` for every
expression `x`. -/
theorem claim6 (x : Expr) :
    eand Expr.nullBool x = x ∧ eor Expr.nullBool x = x ∧
    enot Expr.nullBool = Expr.nullBool :=
  ⟨rfl, rfl, rfl⟩

/-- C7.  Rendering a node-state expression whose referenced node shares no
common ancestor with the attachment node yields the empty string rather than
an error, and the emptiness is absorbed when rendering an enclosing `and` or
`or`: the empty operand's sibling is rendered alone. -/
theorem claim7 (f : Forest) (a att : NodeRef) (st : String) (x : Expr)
    (h : relatedTo att a = false) :
    exprText f att (Expr.nodeState a st) = "" ∧
    exprText f att (Expr.andE (Expr.nodeState a st) x) = exprText f att x ∧
    exprText f att (Expr.orE (Expr.nodeState a st) x) = exprText f att x ∧
    exprText f att (Expr.andE x (Expr.nodeState a st)) = exprText f att x ∧
    exprText f att (Expr.orE x (Expr.nodeState a st)) = exprText f att x := by
  have hp : path_relto f a att = "" := by simp [path_relto, h]
  have hstate : ∀ s : String × Nat,
      renderE f att (Expr.nodeState a st) s = ("", s.2) := by
    intro s; simp [renderE, hp]
  refine ⟨?_, ?_, ?_, ?_, ?_⟩
  · simp [exprText, hstate]
  · by_cases hx : (renderE f att x ("", 99)).1 = "" <;>
      simp [exprText, renderE, renderBin, hp, hx]
  · by_cases hx : (renderE f att x ("", 99)).1 = "" <;>
      simp [exprText, renderE, renderBin, hp, hx]
  · by_cases hx : (renderE f att x ("", 99)).1 = "" <;>
      simp [exprText, renderE, renderBin, hp, hx]
  · by_cases hx : (renderE f att x ("", 99)).1 = "" <;>
      simp [exprText, renderE, renderBin, hp, hx]

/-- Witness for C7: a task of suite `s2` rendering a trigger that references a
task of the unrelated suite `s1`. -/
theorem claim7_witness :
    relatedTo (⟨1, ["s2", "u"]⟩ : NodeRef) (⟨0, ["s1", "f1", "t1"]⟩ : NodeRef)
      = false ∧
    (exprText sampleForest ⟨1, ["s2", "u"]⟩
        (Expr.nodeState ⟨0, ["s1", "f1", "t1"]⟩ "complete") = "" ∧
     exprText sampleForest ⟨1, ["s2", "u"]⟩
        (Expr.andE (Expr.nodeState ⟨0, ["s1", "f1", "t1"]⟩ "complete")
          (Expr.strLit "p")) =
       exprText sampleForest ⟨1, ["s2", "u"]⟩ (Expr.strLit "p") ∧
     exprText sampleForest ⟨1, ["s2", "u"]⟩
        (Expr.orE (Expr.nodeState ⟨0, ["s1", "f1", "t1"]⟩ "complete")
          (Expr.strLit "p")) =
       exprText sampleForest ⟨1, ["s2", "u"]⟩ (Expr.strLit "p") ∧
     exprText sampleForest ⟨1, ["s2", "u"]⟩
        (Expr.andE (Expr.strLit "p")
          (Expr.nodeState ⟨0, ["s1", "f1", "t1"]⟩ "complete")) =
       exprText sampleForest ⟨1, ["s2", "u"]⟩ (Expr.strLit "p") ∧
     exprText sampleForest ⟨1, ["s2", "u"]⟩
        (Expr.orE (Expr.strLit "p")
          (Expr.nodeState ⟨0, ["s1", "f1", "t1"]⟩ "complete")) =
       exprText sampleForest ⟨1, ["s2", "u"]⟩ (Expr.strLit "p")) :=
  ⟨by decide,
   claim7 sampleForest ⟨0, ["s1", "f1", "t1"]⟩ ⟨1, ["s2", "u"]⟩ "complete"
     (Expr.strLit "p") (by decide)⟩

/-- C8.  Relative path resolution round-trips: for two valid nodes of a
well-formed forest, (i) if they live in different trees — no common ancestor —
`path_relto` returns the empty string; (ii) if their most recent common
ancestor is the Suite root, `path_relto` returns the absolute node path
instead of a relative one; (iii) if they live in the same tree, resolving the
returned path from the attachment node yields the original node again. -/
theorem claim8 (f : Forest) (t t' : Nat) (ca cb : List String)
    (hwf : wfForest f = true)
    (ha : (nodeAt f ⟨t, ca⟩).isSome = true)
    (hb : (nodeAt f ⟨t', cb⟩).isSome = true) :
    (t ≠ t' → path_relto f ⟨t, ca⟩ ⟨t', cb⟩ = "") ∧
    (t = t' → mrca ⟨t, ca⟩ ⟨t', cb⟩ = some (rootOf ⟨t, ca⟩) →
      path_relto f ⟨t, ca⟩ ⟨t', cb⟩ = nodePath ⟨t, ca⟩) ∧
    (t = t' →
      resolvePath f ⟨t', cb⟩ (path_relto f ⟨t, ca⟩ ⟨t', cb⟩) = some ⟨t, ca⟩) := by
  have hca : ca ≠ [] := nodeAt_isSome_ne_nil ha
  have hcb : cb ≠ [] := nodeAt_isSome_ne_nil hb
  refine ⟨?_, ?_, ?_⟩
  · intro hne
    have hrelF : relatedTo ⟨t', cb⟩ ⟨t, ca⟩ = false :=
      relatedTo_diff_tree hca hcb hne
    simp [path_relto, hrelF]
  · intro hte hm
    subst hte
    obtain ⟨tra, ca', hga, hcaeq⟩ := nodeAt_head ha
    obtain ⟨trb, cb', hgb, hcbeq⟩ := nodeAt_head hb
    have htrab : tra = trb := by
      rw [hga] at hgb
      exact Option.some_inj.mp hgb
    subst htrab
    have hLne : lcpL ca cb ≠ [] := by
      rw [hcaeq, hcbeq]
      simp [lcpL]
    have hmr : mrca ⟨t, ca⟩ ⟨t, cb⟩ = some ⟨t, lcpL ca cb⟩ :=
      mrca_eq_lcpL hca hcb hLne
    rw [hmr] at hm
    have hLeq : lcpL ca cb = [tra.name] := by
      have h1 : rootOf ⟨t, ca⟩ = ⟨t, [tra.name]⟩ := by
        rw [hcaeq]
        exact rootOf_eq
      rw [h1] at hm
      have h2 : (⟨t, lcpL ca cb⟩ : NodeRef) = ⟨t, [tra.name]⟩ :=
        Option.some_inj.mp hm
      exact congrArg NodeRef.chain h2
    have hsuite : isSuiteRef f ⟨t, lcpL ca cb⟩ = true := by
      rw [hLeq]
      exact isSuiteRef_root hwf hga
    have hrel : relatedTo ⟨t, cb⟩ ⟨t, ca⟩ = true := relatedTo_same_tree ha hb
    simp [path_relto, hrel, hmr, hsuite]
  · intro hte
    subst hte
    exact roundtrip_same_tree f t ca cb hwf ha hb

/-- C8 witness: in the sample forest, the task `/s1/f1/t1` referenced from the
attachment task `/s1/f2/t3` renders as a relative path that resolves back to
`/s1/f1/t1`. -/
theorem claim8_witness :
    wfForest sampleForest = true ∧
    (nodeAt sampleForest ⟨0, ["s1", "f1", "t1"]⟩).isSome = true ∧
    (nodeAt sampleForest ⟨0, ["s1", "f2", "t3"]⟩).isSome = true ∧
    ((0 : Nat) = 0 →
      resolvePath sampleForest ⟨0, ["s1", "f2", "t3"]⟩
          (path_relto sampleForest ⟨0, ["s1", "f1", "t1"]⟩
            ⟨0, ["s1", "f2", "t3"]⟩)
        = some ⟨0, ["s1", "f1", "t1"]⟩) := by
  have h := claim8 sampleForest 0 0 ["s1", "f1", "t1"] ["s1", "f2", "t3"]
    (by decide) (by decide) (by decide)
  exact ⟨by decide, by decide, by decide, h.2.2⟩

/-- C9.  Adding a child whose name is already present among its siblings (and
which is not the same object) fails with `DuplicateNameError`; re-adding the
same object moves it to the end instead of duplicating it (the result holds
exactly one child with that identity). -/
theorem claim9 :
    (∀ (children : List ChildNode) (c : ChildNode),
        (∀ x ∈ children, x.oid ≠ c.oid) → (∃ x ∈ children, x.name = c.name) →
        addChild children c = .error (.duplicateName c.name)) ∧
    (∀ (children : List ChildNode) (c : ChildNode),
        (∃ x ∈ children, x.oid = c.oid) →
        addChild children c
          = .ok ((children.filter (fun x => x.oid != c.oid)) ++ [c]) ∧
        ((children.filter (fun x => x.oid != c.oid)) ++ [c]).countP
          (fun x => decide (x.oid = c.oid)) = 1) := by
  constructor
  · intro children c hoid hname
    have h1 : children.any (fun x => x.oid == c.oid) = false := by
      rw [List.any_eq_false]
      intro x hx
      simpa using hoid x hx
    have h2 : children.any (fun x => x.name == c.name) = true := by
      rw [List.any_eq_true]
      obtain ⟨x, hx, he⟩ := hname
      exact ⟨x, hx, by simpa using he⟩
    simp [addChild, h1, h2]
  · intro children c hex
    have h1 : children.any (fun x => x.oid == c.oid) = true := by
      rw [List.any_eq_true]
      obtain ⟨x, hx, he⟩ := hex
      exact ⟨x, hx, by simpa using he⟩
    refine ⟨by simp [addChild, h1], ?_⟩
    rw [List.countP_append]
    have hz : (children.filter (fun x => x.oid != c.oid)).countP
        (fun x => decide (x.oid = c.oid)) = 0 := by
      rw [List.countP_eq_zero]
      intro x hx
      have hne := List.of_mem_filter hx
      simpa using hne
    simp [hz, List.countP_cons]

/-- Witness for C9: one sibling `t` with the colliding name and, separately,
re-adding the object with identity 1. -/
theorem claim9_witness :
    addChild [⟨1, "t"⟩] ⟨2, "t"⟩ = .error (.duplicateName "t") ∧
    addChild [⟨1, "t"⟩, ⟨2, "u"⟩] ⟨1, "t"⟩
      = .ok (([⟨1, "t"⟩, ⟨2, "u"⟩].filter
          (fun x => x.oid != (⟨1, "t"⟩ : ChildNode).oid)) ++ [⟨1, "t"⟩]) :=
  ⟨claim9.1 [⟨1, "t"⟩] ⟨2, "t"⟩ (by decide) ⟨⟨1, "t"⟩, by decide, rfl⟩,
   (claim9.2 [⟨1, "t"⟩, ⟨2, "u"⟩] ⟨1, "t"⟩ ⟨⟨1, "t"⟩, by decide, rfl⟩).1⟩

/-- C10.  `all_complete` of an empty node list is the `NullBool` identity, its
rendered text is empty, and assigning a `Trigger` built from an empty node
list deletes/leaves absent the node's trigger instead of raising. -/
theorem claim10 :
    all_complete [] = Expr.nullBool ∧
    (∀ (f : Forest) (att : NodeRef), exprText f att (all_complete []) = "") ∧
    (∀ stored : Option Expr, addTrigger stored (Trigger.ofNodes []) = none) :=
  ⟨rfl, fun _ _ => rfl, fun _ => rfl⟩

end Geoglows
